import Mathlib

/-!
Shallow embedding of `geo_assigner.py` (Stadt Karlsruhe `geo_assigner`).

The Python module assigns a property from a source GeoJSON feature
collection to a target collection: for every target feature it tests every
source feature for a non-empty geometric intersection and lets a pluggable
`Strategy` (hooks `begin` / `intersection` / `end`) update the target's
properties in place through an `Element` facade.

Modelling choices:
* Python features are heap objects; a feature collection is a list of
  references.  We model the heap as `Store G = List (Feature G)` and a
  collection as a `List Nat` of indices into the store, so that the same
  feature occurring in both collections (aliasing) is representable.
* Property mappings are association lists with unique keys (Python dicts
  cannot hold duplicate keys); `delProp` removes every binding of the key,
  which coincides with `del d[k]` on the unique-key representation.
* Geometry is delegated to shapely in the source; we model the geometry
  engine abstractly as `GeoLib G` (an intersection operation and an
  emptiness test) and a raw geometry that either parses to a shape or is
  malformed (`shapely.geometry.asShape` raising at `Element.__init__`).
* Hooks are store transformers returning `Except`; an uncaught error
  aborts the run at that point, leaving the partially mutated store, as a
  Python exception would.  The engine additionally records a trace of
  events (progress-callback calls and hook invocations) so that claims
  about call order are statable.
* Reads of a source value snapshot the value (Python stores a reference;
  for the atomic values used in all decisive inputs below the two agree).
-/

set_option maxHeartbeats 1000000

namespace GeoAssigner

/-- A JSON-like property value (enough structure for the claims:
atomic numbers and nested lists, as built by `ListValuesStrategy`). -/
inductive Value where
  | num (n : Int)
  | str (s : String)
  | vlist (vs : List Value)

mutual

/-- Decidable equality on values (the nested list forces a manual
mutual definition). -/
def decEqV : (a b : Value) → Decidable (a = b)
  | .num a, .num b =>
      if h : a = b then isTrue (by subst h; rfl)
      else isFalse (fun hc => by cases hc; exact h rfl)
  | .num _, .str _ => isFalse (fun hc => Value.noConfusion hc)
  | .num _, .vlist _ => isFalse (fun hc => Value.noConfusion hc)
  | .str a, .str b =>
      if h : a = b then isTrue (by subst h; rfl)
      else isFalse (fun hc => by cases hc; exact h rfl)
  | .str _, .num _ => isFalse (fun hc => Value.noConfusion hc)
  | .str _, .vlist _ => isFalse (fun hc => Value.noConfusion hc)
  | .vlist as, .vlist bs =>
      match decEqL as bs with
      | isTrue h => isTrue (by subst h; rfl)
      | isFalse h => isFalse (fun hc => by cases hc; exact h rfl)
  | .vlist _, .num _ => isFalse (fun hc => Value.noConfusion hc)
  | .vlist _, .str _ => isFalse (fun hc => Value.noConfusion hc)

/-- Decidable equality on lists of values. -/
def decEqL : (as bs : List Value) → Decidable (as = bs)
  | [], [] => isTrue rfl
  | [], _ :: _ => isFalse (fun hc => List.noConfusion hc)
  | _ :: _, [] => isFalse (fun hc => List.noConfusion hc)
  | a :: as, b :: bs =>
      match decEqV a b with
      | isFalse h => isFalse (fun hc => by cases hc; exact h rfl)
      | isTrue h =>
        match decEqL as bs with
        | isTrue h2 => isTrue (by subst h; subst h2; rfl)
        | isFalse h2 => isFalse (fun hc => by cases hc; exact h2 rfl)

end

instance : DecidableEq Value := decEqV

/-- The property mapping of a feature: `feature['properties']`,
an association list standing for a Python dict (keys unique). -/
abbrev Props := List (String × Value)

/-- `properties[key]` lookup (first binding). -/
def getProp : Props → String → Option Value
  | [], _ => none
  | (k', v) :: rest, k => if k' = k then some v else getProp rest k

/-- `properties[key] = value`: overwrite the existing binding in place,
else append a new binding at the end (Python dict insertion order). -/
def setProp : Props → String → Value → Props
  | [], k, v => [(k, v)]
  | (k', v') :: rest, k, v =>
      if k' = k then (k, v) :: rest else (k', v') :: setProp rest k v

/-- `del properties[key]` (the caller checks presence): removes the key.
On the unique-key representation this equals removing the first binding. -/
def delProp (ps : Props) (k : String) : Props :=
  ps.filter (fun kv => kv.1 != k)

/-- The external geometry engine (shapely): an intersection operation and
the `is_empty` test.  The source delegates all geometric computation. -/
structure GeoLib (G : Type) where
  inter : G → G → G
  isEmptyShape : G → Bool

/-- A raw GeoJSON geometry: either parses to a shape or is malformed
(`shapely.geometry.asShape` raises on it). -/
inductive RawGeom (G : Type) where
  | wellFormed (g : G)
  | malformed
deriving DecidableEq

/-- `shapely.geometry.asShape`: parse a raw geometry, failing on
malformed input. -/
def asShape {G : Type} : RawGeom G → Option G
  | .wellFormed g => some g
  | .malformed => none

/-- A GeoJSON feature: a geometry and a property mapping. -/
structure Feature (G : Type) where
  geometry : RawGeom G
  properties : Props
deriving DecidableEq

/-- The heap of feature objects; collections hold indices into it. -/
abbrev Store (G : Type) := List (Feature G)

/-- Placeholder for a dangling reference (never arises from real Python
runs; it has a malformed geometry, so element conversion rejects it). -/
def defaultFeature {G : Type} : Feature G := ⟨.malformed, []⟩

/-- Dereference a feature id. -/
def getFeat {G : Type} : Store G → Nat → Feature G
  | [], _ => defaultFeature
  | f :: _, 0 => f
  | _ :: rest, Nat.succ i => getFeat rest i

/-- Update the feature stored at an id (no-op when out of range). -/
def setFeat {G : Type} : Store G → Nat → Feature G → Store G
  | [], _, _ => []
  | _ :: rest, 0, f => f :: rest
  | g :: rest, Nat.succ i, f => g :: setFeat rest i f

/-- Errors a run can surface (uncaught Python exceptions). -/
inductive AErr where
  | geometryParse
  | propertyNotFound (key : String)
  | attributeError
deriving DecidableEq

/-- `Element`: the facade over one feature, pairing the feature reference
with the shape parsed once at construction time. -/
structure Element (G : Type) where
  featId : Nat
  shape : G
deriving DecidableEq

/-- The element's live view of its feature's properties. -/
def elemProps {G : Type} (st : Store G) (e : Element G) : Props :=
  (getFeat st e.featId).properties

/-- `Element.__getitem__`: read a property, `KeyError` when absent. -/
def elemGet {G : Type} (st : Store G) (e : Element G) (k : String) :
    Except AErr Value :=
  match getProp (elemProps st e) k with
  | some v => .ok v
  | none => .error (.propertyNotFound k)

/-- `Element.__setitem__`: write a property through the facade; the
write lands on the backing feature in the store. -/
def elemSet {G : Type} (st : Store G) (e : Element G) (k : String)
    (v : Value) : Store G :=
  setFeat st e.featId
    { getFeat st e.featId with properties := setProp (elemProps st e) k v }

/-- `Element.__delitem__`: delete a property, `KeyError` when absent. -/
def elemDel {G : Type} (st : Store G) (e : Element G) (k : String) :
    Except AErr (Store G) :=
  match getProp (elemProps st e) k with
  | some _ => .ok (setFeat st e.featId
      { getFeat st e.featId with properties := delProp (elemProps st e) k })
  | none => .error (.propertyNotFound k)

/-- `_geojson_to_elements`: parse every feature of a collection into an
element, failing on the first malformed geometry. -/
def toElements {G : Type} (st : Store G) : List Nat →
    Option (List (Element G))
  | [] => some []
  | i :: rest =>
    match asShape (getFeat st i).geometry with
    | none => none
    | some g =>
      match toElements st rest with
      | none => none
      | some es => some (Element.mk i g :: es)

/-- A resolution strategy: the three lifecycle hooks (Python methods
`begin`, `intersection`, `end`; `end` is a Lean keyword, hence the
`on…` field names).  `onIntersection` receives source, target and the
intersection shape, in the source's argument order. -/
structure Strategy (G : Type) where
  property_name : String
  onBegin : Store G → Element G → Except AErr (Store G)
  onIntersection : Store G → Element G → Element G → G →
      Except AErr (Store G)
  onEnd : Store G → Element G → Except AErr (Store G)

/-- The base `Strategy` class: every hook is `pass`. -/
def baseStrategy (G : Type) (p : String) : Strategy G where
  property_name := p
  onBegin := fun st _ => .ok st
  onIntersection := fun st _ _ _ => .ok st
  onEnd := fun st _ => .ok st

/-- `LastValueStrategy`: `begin` deletes the property, swallowing
`KeyError`; `intersection` overwrites the target's property with the
source's value; `end` is inherited (`pass`). -/
def LastValueStrategy (G : Type) (p : String) : Strategy G where
  property_name := p
  onBegin := fun st tgt =>
    match elemDel st tgt p with
    | .ok st' => .ok st'
    | .error _ => .ok st
  onIntersection := fun st src tgt _ =>
    match elemGet st src p with
    | .ok v => .ok (elemSet st tgt p v)
    | .error e => .error e
  onEnd := fun st _ => .ok st

/-- `ListValuesStrategy`: `begin` sets the property to `[]`;
`intersection` runs `target[p].append(source[p])` — the target read
happens first and must yield a list (else `AttributeError`), then the
source read, then the append; `end` is inherited (`pass`). -/
def ListValuesStrategy (G : Type) (p : String) : Strategy G where
  property_name := p
  onBegin := fun st tgt => .ok (elemSet st tgt p (.vlist []))
  onIntersection := fun st src tgt _ =>
    match elemGet st tgt p with
    | .error e => .error e
    | .ok (.vlist vs) =>
        match elemGet st src p with
        | .ok v => .ok (elemSet st tgt p (.vlist (vs ++ [v])))
        | .error e => .error e
    | .ok _ => .error .attributeError
  onEnd := fun st _ => .ok st

/-- Observable events of a run: progress-callback invocations and hook
invocations, tagged with the target index `i` (and source index `j`). -/
inductive Event where
  | progress (i n : Nat)
  | beginHook (i : Nat)
  | intersectionTest (i j : Nat)
  | intersectionHook (i j : Nat)
  | endHook (i : Nat)
deriving DecidableEq

/-- The inner loop of `assign`: for one target, iterate the sources,
compute the intersection, skip when empty, else invoke the strategy's
intersection hook; an uncaught hook error aborts. -/
def sourcesLoop {G : Type} (geo : GeoLib G) (strat : Strategy G)
    (tgt : Element G) (ti : Nat) :
    Store G → Nat → List (Element G) → Store G × List Event × Option AErr
  | st, _, [] => (st, [], none)
  | st, j, src :: rest =>
    let inter := geo.inter tgt.shape src.shape
    if geo.isEmptyShape inter then
      let r := sourcesLoop geo strat tgt ti st (j + 1) rest
      (r.1, Event.intersectionTest ti j :: r.2.1, r.2.2)
    else
      match strat.onIntersection st src tgt inter with
      | .error e =>
          (st, [Event.intersectionTest ti j, Event.intersectionHook ti j],
            some e)
      | .ok st' =>
          let r := sourcesLoop geo strat tgt ti st' (j + 1) rest
          (r.1, Event.intersectionTest ti j :: Event.intersectionHook ti j ::
            r.2.1, r.2.2)

/-- Processing of one target: optional progress call, `begin` hook,
inner source loop, `end` hook. -/
def processTarget {G : Type} (geo : GeoLib G) (strat : Strategy G)
    (sources : List (Element G)) (prog : Bool) (n ti : Nat)
    (st : Store G) (tgt : Element G) : Store G × List Event × Option AErr :=
  let pevs := if prog then [Event.progress ti n] else []
  match strat.onBegin st tgt with
  | .error e => (st, pevs ++ [Event.beginHook ti], some e)
  | .ok st1 =>
    let r := sourcesLoop geo strat tgt ti st1 0 sources
    match r.2.2 with
    | some e => (r.1, pevs ++ Event.beginHook ti :: r.2.1, some e)
    | none =>
      match strat.onEnd r.1 tgt with
      | .error e =>
          (r.1, pevs ++ Event.beginHook ti :: r.2.1 ++ [Event.endHook ti],
            some e)
      | .ok st3 =>
          (st3, pevs ++ Event.beginHook ti :: r.2.1 ++ [Event.endHook ti],
            none)

/-- The outer loop of `assign` over the targets (with running index). -/
def targetsLoop {G : Type} (geo : GeoLib G) (strat : Strategy G)
    (sources : List (Element G)) (prog : Bool) (n : Nat) :
    Store G → Nat → List (Element G) → Store G × List Event × Option AErr
  | st, _, [] => (st, [], none)
  | st, ti, tgt :: rest =>
    let r := processTarget geo strat sources prog n ti st tgt
    match r.2.2 with
    | some e => (r.1, r.2.1, some e)
    | none =>
      let r2 := targetsLoop geo strat sources prog n r.1 (ti + 1) rest
      (r2.1, r.2.1 ++ r2.2.1, r2.2.2)

/-- Outcome of a run: the final heap, the event trace, and the error
that aborted the run, if any. -/
structure RunResult (G : Type) where
  store : Store G
  events : List Event
  error : Option AErr
deriving DecidableEq

/-- `assign(source_geojson, target_geojson, strategy, progress)`:
convert sources, then targets (aborting on a parse failure with the
store untouched), then run the target loop. -/
def assign {G : Type} (geo : GeoLib G) (st : Store G)
    (srcIds tgtIds : List Nat) (strat : Strategy G) (prog : Bool) :
    RunResult G :=
  match toElements st srcIds with
  | none => ⟨st, [], some .geometryParse⟩
  | some sources =>
    match toElements st tgtIds with
    | none => ⟨st, [], some .geometryParse⟩
    | some targets =>
      let r := targetsLoop geo strat sources prog targets.length st 0 targets
      ⟨r.1, r.2.1, r.2.2⟩

/-- The sources whose shape has a non-empty intersection with a given
target shape, in collection order. -/
def intersecting {G : Type} (geo : GeoLib G) (sources : List (Element G))
    (tshape : G) : List (Element G) :=
  sources.filter (fun s => !(geo.isEmptyShape (geo.inter tshape s.shape)))

/-- The property values of a list of source elements, read in a given
store; `none` when some element lacks the property. -/
def srcVals {G : Type} (st : Store G) (p : String) :
    List (Element G) → Option (List Value)
  | [] => some []
  | s :: rest =>
    match getProp (elemProps st s) p with
    | none => none
    | some v =>
      match srcVals st p rest with
      | none => none
      | some vs => some (v :: vs)

/-- A concrete geometry engine for witnesses: shapes are finite point
sets, intersection is set intersection, emptiness is list emptiness. -/
def natGeo : GeoLib (List Nat) where
  inter := fun a b => a.filter (fun x => b.contains x)
  isEmptyShape := List.isEmpty

/-- Replace the property mapping of the feature at an id, keeping its
geometry (the shape of every in-place property update). -/
def setFeatProps {G : Type} (st : Store G) (i : Nat) (q : Props) : Store G :=
  setFeat st i { getFeat st i with properties := q }

/-- Net transformation `LastValueStrategy` applies to a target's
property mapping, given the values `vs` of its intersecting sources:
the `begin` deletion followed by one overwrite per intersecting source. -/
def lastFold (p : String) (vs : List Value) (q : Props) : Props :=
  vs.foldl (fun a v => setProp a p v) (delProp q p)

/-- Net transformation `ListValuesStrategy` applies to a target's
property mapping, given the values `vs` of its intersecting sources. -/
def listFold (p : String) (vs : List Value) (q : Props) : Props :=
  setProp q p (.vlist vs)

/-- The target index an event is tagged with. -/
def eventIdx : Event → Nat
  | .progress i _ => i
  | .beginHook i => i
  | .intersectionTest i _ => i
  | .intersectionHook i _ => i
  | .endHook i => i

/-- Whether an event is a progress-callback invocation. -/
def isProgressEv : Event → Bool
  | .progress _ _ => true
  | _ => false

/-- The arguments of the progress-callback invocations of a trace,
in order. -/
def progressCalls (evs : List Event) : List (Nat × Nat) :=
  evs.filterMap (fun e =>
    match e with
    | .progress i n => some (i, n)
    | _ => none)

/-- The sources' property values are unchanged between two stores. -/
def SrcAgree {G : Type} (store0 st : Store G)
    (sources : List (Element G)) : Prop :=
  ∀ s ∈ sources, elemProps st s = elemProps store0 s

/-- Claim C1 as stated, at one input: after a completed
`LastValueStrategy` run, every target with at least one intersecting
source carries the property value of the last intersecting source
(values read off the final state), and every target with none has the
property absent. -/
def LastClaimHolds {G : Type} (geo : GeoLib G) (st0 : Store G)
    (srcIds tgtIds : List Nat) (p : String) (prog : Bool) : Prop :=
  ∀ sources targets,
    toElements st0 srcIds = some sources →
    toElements st0 tgtIds = some targets →
    (assign geo st0 srcIds tgtIds (LastValueStrategy G p) prog).error =
      none →
    ∀ tgt ∈ targets,
      (intersecting geo sources tgt.shape = [] →
        getProp (elemProps
          (assign geo st0 srcIds tgtIds (LastValueStrategy G p) prog).store
          tgt) p = none) ∧
      (∀ s, (intersecting geo sources tgt.shape).getLast? = some s →
        ∃ v,
          getProp (elemProps
            (assign geo st0 srcIds tgtIds (LastValueStrategy G p)
              prog).store s) p = some v ∧
          getProp (elemProps
            (assign geo st0 srcIds tgtIds (LastValueStrategy G p)
              prog).store tgt) p = some v)

/-- Claim C2 as stated, at one input: after a completed
`ListValuesStrategy` run, every target's property is the ordered list of
the property values of its intersecting sources (values read off the
final state), empty when none intersect. -/
def ListClaimHolds {G : Type} (geo : GeoLib G) (st0 : Store G)
    (srcIds tgtIds : List Nat) (p : String) (prog : Bool) : Prop :=
  ∀ sources targets,
    toElements st0 srcIds = some sources →
    toElements st0 tgtIds = some targets →
    (assign geo st0 srcIds tgtIds (ListValuesStrategy G p) prog).error =
      none →
    ∀ tgt ∈ targets,
      ∃ vs,
        srcVals
          (assign geo st0 srcIds tgtIds (ListValuesStrategy G p) prog).store
          p (intersecting geo sources tgt.shape) = some vs ∧
        getProp (elemProps
          (assign geo st0 srcIds tgtIds (ListValuesStrategy G p)
            prog).store tgt) p = some (.vlist vs)

/-- Aliased input: feature 1 occurs in both collections.  Features:
0 = shape `{1}` with `p = 10`; 1 = shape `{1, 2}` with `p = 20`;
2 = shape `{2}` with no properties. -/
def cexStore : Store (List Nat) :=
  [⟨.wellFormed [1], [("p", .num 10)]⟩,
   ⟨.wellFormed [1, 2], [("p", .num 20)]⟩,
   ⟨.wellFormed [2], []⟩]

/-- Aliased input for C6: feature 1 (in both collections) lacks `p`. -/
def cexStore6 : Store (List Nat) :=
  [⟨.wellFormed [1], [("p", .num 10)]⟩,
   ⟨.wellFormed [1], []⟩]

/-- Aliased input for C10: feature 1 occurs in both collections and a
later target (feature 2) reads it as a source after it was mutated. -/
def aliasStore : Store (List Nat) :=
  [⟨.wellFormed [1], [("p", .num 10)]⟩,
   ⟨.wellFormed [1], [("p", .num 20)]⟩,
   ⟨.wellFormed [1], []⟩]

/-- Disjoint well-formed input for witnesses: sources 0, 1 and targets
2 (intersecting source 1 only), 3 (intersecting nothing). -/
def okStore : Store (List Nat) :=
  [⟨.wellFormed [1], [("p", .num 10)]⟩,
   ⟨.wellFormed [1, 2], [("p", .num 20)]⟩,
   ⟨.wellFormed [2], []⟩,
   ⟨.wellFormed [5], []⟩]

/-- Disjoint input for the C6 witness: source 1 intersects target 2 but
lacks `p`. -/
def missStore : Store (List Nat) :=
  [⟨.wellFormed [1], [("p", .num 10)]⟩,
   ⟨.wellFormed [1], []⟩,
   ⟨.wellFormed [1], []⟩]

/-- Input with an unparsable geometry for the C3 witness. -/
def badGeomStore : Store (List Nat) :=
  [⟨.wellFormed [1], [("p", .num 10)]⟩,
   ⟨.malformed, [("q", .num 3)]⟩]

end GeoAssigner

namespace GeoAssigner

theorem getProp_setProp_self (ps : Props) (k : String) (v : Value) :
    getProp (setProp ps k v) k = some v := by
  induction ps with
  | nil => simp [setProp, getProp]
  | cons hd tl ih =>
    by_cases h : hd.1 = k
    · simp only [setProp]
      rw [if_pos h]
      simp [getProp]
    · cases hd with
      | mk k' v' =>
        simp only [setProp] at *
        rw [if_neg h]
        simpa [getProp, h] using ih

theorem setProp_of_getProp_eq (ps : Props) (k : String) (v : Value)
    (h : getProp ps k = some v) : setProp ps k v = ps := by
  induction ps with
  | nil => simp [getProp] at h
  | cons hd tl ih =>
    cases hd with
    | mk k' v' =>
      by_cases hk : k' = k
      · subst hk
        simp [getProp] at h
        simp [setProp, h]
      · simp [getProp, hk] at h
        simp [setProp, hk, ih h]

theorem setProp_setProp (ps : Props) (k : String) (v w : Value) :
    setProp (setProp ps k v) k w = setProp ps k w := by
  induction ps with
  | nil => simp [setProp]
  | cons hd tl ih =>
    cases hd with
    | mk k' v' =>
      by_cases hk : k' = k
      · simp [setProp, hk]
      · simp [setProp, hk, ih]

theorem delProp_of_getProp_none (ps : Props) (k : String)
    (h : getProp ps k = none) : delProp ps k = ps := by
  induction ps with
  | nil => simp [delProp]
  | cons hd tl ih =>
    cases hd with
    | mk k' v' =>
      by_cases hk : k' = k
      · simp [getProp, hk] at h
      · simp only [getProp, if_neg hk] at h
        have h2 : List.filter (fun kv => kv.1 != k) tl = tl := ih h
        simp only [delProp, List.filter_cons]
        rw [show ((k', v').1 != k) = true by simpa using hk]
        simp only [if_true, h2]

theorem getProp_delProp (ps : Props) (k : String) :
    getProp (delProp ps k) k = none := by
  induction ps with
  | nil => simp [delProp, getProp]
  | cons hd tl ih =>
    cases hd with
    | mk k' v' =>
      by_cases hk : k' = k
      · simpa [delProp, List.filter, hk] using ih
      · simp only [delProp, List.filter] at ih ⊢
        simp only [show (k' != k) = true by simpa using hk]
        simpa [getProp, hk] using ih

theorem delProp_setProp (ps : Props) (k : String) (v : Value) :
    delProp (setProp ps k v) k = delProp ps k := by
  induction ps with
  | nil => simp [setProp, delProp, List.filter]
  | cons hd tl ih =>
    cases hd with
    | mk k' v' =>
      by_cases hk : k' = k
      · simp [setProp, hk, delProp, List.filter]
      · simp only [setProp, if_neg hk, delProp, List.filter] at ih ⊢
        simp only [show (k' != k) = true by simpa using hk]
        simpa using ih

theorem delProp_delProp (ps : Props) (k : String) :
    delProp (delProp ps k) k = delProp ps k := by
  apply delProp_of_getProp_none
  exact getProp_delProp ps k

theorem getProp_foldl_setProp (p : String) :
    ∀ (vs : List Value) (q : Props) (v : Value), vs.getLast? = some v →
      getProp (vs.foldl (fun a w => setProp a p w) q) p = some v := by
  intro vs
  induction vs with
  | nil => intro q v h; simp at h
  | cons hd tl ih =>
    intro q v h
    cases tl with
    | nil =>
      simp at h
      subst h
      simpa [List.foldl] using getProp_setProp_self q p hd
    | cons hd2 tl2 =>
      rw [List.getLast?_cons_cons] at h
      simpa [List.foldl] using ih (setProp q p hd) v h

theorem delProp_foldl_setProp (p : String) :
    ∀ (vs : List Value) (q : Props),
      delProp (vs.foldl (fun a w => setProp a p w) q) p = delProp q p := by
  intro vs
  induction vs with
  | nil => intro q; rfl
  | cons hd tl ih =>
    intro q
    simpa [List.foldl, delProp_setProp] using
      (ih (setProp q p hd)).trans (delProp_setProp q p hd)

theorem lastFold_lastFold (p : String) (vs : List Value) (q : Props) :
    lastFold p vs (lastFold p vs q) = lastFold p vs q := by
  unfold lastFold
  rw [delProp_foldl_setProp, delProp_delProp]

theorem listFold_listFold (p : String) (vs : List Value) (q : Props) :
    listFold p vs (listFold p vs q) = listFold p vs q := by
  unfold listFold
  rw [setProp_setProp]

theorem getProp_listFold (p : String) (vs : List Value) (q : Props) :
    getProp (listFold p vs q) p = some (.vlist vs) :=
  getProp_setProp_self q p (.vlist vs)

theorem getFeat_oob {G : Type} :
    ∀ (st : Store G) (i : Nat), st.length ≤ i →
      getFeat st i = defaultFeature := by
  intro st
  induction st with
  | nil => intro i _; rfl
  | cons hd tl ih =>
    intro i h
    cases i with
    | zero => simp at h
    | succ j => exact ih j (by simpa using h)

theorem setFeat_oob {G : Type} :
    ∀ (st : Store G) (i : Nat) (f : Feature G), st.length ≤ i →
      setFeat st i f = st := by
  intro st
  induction st with
  | nil => intro i f _; rfl
  | cons hd tl ih =>
    intro i f h
    cases i with
    | zero => simp at h
    | succ j => simpa [setFeat] using ih j f (by simpa using h)

theorem setFeat_length {G : Type} :
    ∀ (st : Store G) (i : Nat) (f : Feature G),
      (setFeat st i f).length = st.length := by
  intro st
  induction st with
  | nil => intro i f; rfl
  | cons hd tl ih =>
    intro i f
    cases i with
    | zero => rfl
    | succ j => simpa [setFeat] using ih j f

theorem getFeat_setFeat_self {G : Type} :
    ∀ (st : Store G) (i : Nat) (f : Feature G), i < st.length →
      getFeat (setFeat st i f) i = f := by
  intro st
  induction st with
  | nil => intro i f h; simp at h
  | cons hd tl ih =>
    intro i f h
    cases i with
    | zero => rfl
    | succ j => exact ih j f (by simpa using h)

theorem getFeat_setFeat_ne {G : Type} :
    ∀ (st : Store G) (i j : Nat) (f : Feature G), j ≠ i →
      getFeat (setFeat st i f) j = getFeat st j := by
  intro st
  induction st with
  | nil => intro i j f _; rfl
  | cons hd tl ih =>
    intro i j f h
    cases i with
    | zero =>
      cases j with
      | zero => exact absurd rfl h
      | succ j2 => rfl
    | succ i2 =>
      cases j with
      | zero => rfl
      | succ j2 =>
        simpa [setFeat, getFeat] using ih i2 j2 f (by omega)

theorem setFeat_getFeat_self {G : Type} :
    ∀ (st : Store G) (i : Nat), setFeat st i (getFeat st i) = st := by
  intro st
  induction st with
  | nil => intro i; rfl
  | cons hd tl ih =>
    intro i
    cases i with
    | zero => rfl
    | succ j => simpa [setFeat, getFeat] using ih j

theorem store_ext {G : Type} :
    ∀ (st1 st2 : Store G), st1.length = st2.length →
      (∀ j, getFeat st1 j = getFeat st2 j) → st1 = st2 := by
  intro st1
  induction st1 with
  | nil =>
    intro st2 hl _
    cases st2 with
    | nil => rfl
    | cons hd tl => simp at hl
  | cons hd tl ih =>
    intro st2 hl hp
    cases st2 with
    | nil => simp at hl
    | cons hd2 tl2 =>
      have h0 : hd = hd2 := hp 0
      have : tl = tl2 := ih tl2 (by simpa using hl) (fun j => hp (j + 1))
      rw [h0, this]

end GeoAssigner

namespace GeoAssigner

theorem setFeatProps_length {G : Type} (st : Store G) (i : Nat)
    (q : Props) : (setFeatProps st i q).length = st.length :=
  setFeat_length st i _

theorem getFeat_setFeatProps_self {G : Type} (st : Store G) (i : Nat)
    (q : Props) (h : i < st.length) :
    getFeat (setFeatProps st i q) i = ⟨(getFeat st i).geometry, q⟩ :=
  getFeat_setFeat_self st i _ h

theorem getFeat_setFeatProps_ne {G : Type} (st : Store G) (i j : Nat)
    (q : Props) (h : j ≠ i) :
    getFeat (setFeatProps st i q) j = getFeat st j :=
  getFeat_setFeat_ne st i j _ h

theorem geom_setFeatProps {G : Type} (st : Store G) (i : Nat)
    (q : Props) (j : Nat) :
    (getFeat (setFeatProps st i q) j).geometry = (getFeat st j).geometry := by
  by_cases hj : j = i
  · subst hj
    by_cases h : j < st.length
    · rw [getFeat_setFeatProps_self st j q h]
    · rw [setFeatProps, setFeat_oob st j _ (by omega)]
  · rw [getFeat_setFeatProps_ne st i j q hj]

theorem setFeatProps_setFeatProps {G : Type} (st : Store G) (i : Nat)
    (q1 q2 : Props) :
    setFeatProps (setFeatProps st i q1) i q2 = setFeatProps st i q2 := by
  by_cases h : i < st.length
  · apply store_ext
    · rw [setFeatProps_length, setFeatProps_length, setFeatProps_length]
    · intro j
      by_cases hj : j = i
      · subst hj
        rw [getFeat_setFeatProps_self _ _ _
            (by rw [setFeatProps_length]; exact h),
          getFeat_setFeatProps_self _ _ _ h,
          getFeat_setFeatProps_self _ _ _ h]
      · rw [getFeat_setFeatProps_ne _ _ _ _ hj,
          getFeat_setFeatProps_ne _ _ _ _ hj,
          getFeat_setFeatProps_ne _ _ _ _ hj]
  · have hin : setFeatProps st i q1 = st := by
      rw [setFeatProps, setFeat_oob st i _ (by omega)]
    rw [hin]

theorem setFeatProps_props_self {G : Type} (st : Store G) (i : Nat) :
    setFeatProps st i (getFeat st i).properties = st := by
  rw [setFeatProps]
  have : ({ getFeat st i with properties := (getFeat st i).properties } :
      Feature G) = getFeat st i := rfl
  rw [this, setFeat_getFeat_self]

theorem elemProps_setFeatProps_self {G : Type} (st : Store G)
    (e : Element G) (q : Props) (h : e.featId < st.length) :
    elemProps (setFeatProps st e.featId q) e = q := by
  rw [elemProps, getFeat_setFeatProps_self st e.featId q h]

theorem elemProps_setFeatProps_ne {G : Type} (st : Store G)
    (e : Element G) (i : Nat) (q : Props) (h : e.featId ≠ i) :
    elemProps (setFeatProps st i q) e = elemProps st e := by
  rw [elemProps, getFeat_setFeatProps_ne st i e.featId q h, elemProps]

theorem elemSet_eq {G : Type} (st : Store G) (e : Element G)
    (k : String) (v : Value) :
    elemSet st e k v = setFeatProps st e.featId (setProp (elemProps st e) k v) :=
  rfl

theorem lastBegin_ok {G : Type} (st : Store G) (tgt : Element G)
    (p : String) :
    (LastValueStrategy G p).onBegin st tgt =
      .ok (setFeatProps st tgt.featId (delProp (elemProps st tgt) p)) := by
  rw [LastValueStrategy]
  simp only
  rw [elemDel]
  cases h : getProp (elemProps st tgt) p with
  | some v => rfl
  | none =>
    simp only
    rw [delProp_of_getProp_none _ _ h]
    simp only [elemProps]
    rw [setFeatProps_props_self]

theorem listBegin_ok {G : Type} (st : Store G) (tgt : Element G)
    (p : String) :
    (ListValuesStrategy G p).onBegin st tgt =
      .ok (setFeatProps st tgt.featId
        (setProp (elemProps st tgt) p (.vlist []))) :=
  rfl

theorem toElements_mem_featId {G : Type} :
    ∀ (ids : List Nat) (st : Store G) (es : List (Element G)),
      toElements st ids = some es → ∀ e ∈ es, e.featId ∈ ids := by
  intro ids
  induction ids with
  | nil =>
    intro st es h e he
    simp [toElements] at h
    subst h
    simp at he
  | cons i rest ih =>
    intro st es h e he
    rw [toElements] at h
    cases hg : asShape (getFeat st i).geometry with
    | none => rw [hg] at h; simp at h
    | some g =>
      rw [hg] at h
      cases hr : toElements st rest with
      | none => rw [hr] at h; simp at h
      | some es2 =>
        rw [hr] at h
        simp at h
        subst h
        rcases List.mem_cons.mp he with he2 | he2
        · simp [he2]
        · exact List.mem_cons_of_mem i (ih st es2 hr e he2)

theorem toElements_shape {G : Type} :
    ∀ (ids : List Nat) (st : Store G) (es : List (Element G)),
      toElements st ids = some es →
      ∀ e ∈ es, (getFeat st e.featId).geometry = .wellFormed e.shape := by
  intro ids
  induction ids with
  | nil =>
    intro st es h e he
    simp [toElements] at h
    subst h
    simp at he
  | cons i rest ih =>
    intro st es h e he
    rw [toElements] at h
    cases hg : asShape (getFeat st i).geometry with
    | none => rw [hg] at h; simp at h
    | some g =>
      rw [hg] at h
      cases hr : toElements st rest with
      | none => rw [hr] at h; simp at h
      | some es2 =>
        rw [hr] at h
        simp at h
        subst h
        rcases List.mem_cons.mp he with he2 | he2
        · subst he2
          simp only
          cases hgg : (getFeat st i).geometry with
          | wellFormed g2 => rw [hgg] at hg; simp [asShape] at hg; rw [hg]
          | malformed => rw [hgg] at hg; simp [asShape] at hg
        · exact ih st es2 hr e he2

theorem toElements_featId_lt {G : Type} (ids : List Nat) (st : Store G)
    (es : List (Element G)) (h : toElements st ids = some es) :
    ∀ e ∈ es, e.featId < st.length := by
  intro e he
  by_contra hlt
  have := toElements_shape ids st es h e he
  rw [getFeat_oob st e.featId (by omega)] at this
  simp [defaultFeature] at this

theorem toElements_elem_eta {G : Type} (ids : List Nat) (st : Store G)
    (es : List (Element G)) (h : toElements st ids = some es) :
    ∀ e1 ∈ es, ∀ e2 ∈ es, e1.featId = e2.featId → e1 = e2 := by
  intro e1 h1 e2 h2 hfe
  have s1 := toElements_shape ids st es h e1 h1
  have s2 := toElements_shape ids st es h e2 h2
  rw [hfe] at s1
  rw [s2] at s1
  cases e1 with
  | mk f1 g1 =>
    cases e2 with
    | mk f2 g2 =>
      simp at hfe
      simp at s1
      simp [hfe, s1]

theorem toElements_congr {G : Type} :
    ∀ (ids : List Nat) (st1 st2 : Store G),
      (∀ i ∈ ids, (getFeat st1 i).geometry = (getFeat st2 i).geometry) →
      toElements st1 ids = toElements st2 ids := by
  intro ids
  induction ids with
  | nil => intro st1 st2 _; rfl
  | cons i rest ih =>
    intro st1 st2 hg
    rw [toElements, toElements, hg i (by simp),
      ih st1 st2 (fun j hj => hg j (List.mem_cons_of_mem i hj))]

end GeoAssigner

namespace GeoAssigner

theorem srcVals_congr {G : Type} (p : String) :
    ∀ (ss : List (Element G)) (st1 st2 : Store G),
      (∀ s ∈ ss, elemProps st1 s = elemProps st2 s) →
      srcVals st1 p ss = srcVals st2 p ss := by
  intro ss
  induction ss with
  | nil => intro st1 st2 _; rfl
  | cons s rest ih =>
    intro st1 st2 hp
    rw [srcVals, srcVals, hp s (by simp),
      ih st1 st2 (fun x hx => hp x (List.mem_cons_of_mem s hx))]

theorem srcVals_isSome_of_present {G : Type} (p : String) :
    ∀ (ss : List (Element G)) (st : Store G),
      (∀ s ∈ ss, (getProp (elemProps st s) p).isSome = true) →
      ∃ vs, srcVals st p ss = some vs := by
  intro ss
  induction ss with
  | nil => intro st _; exact ⟨[], rfl⟩
  | cons s rest ih =>
    intro st hp
    have h1 := hp s (by simp)
    cases hv : getProp (elemProps st s) p with
    | none => rw [hv] at h1; simp at h1
    | some v =>
      obtain ⟨vs, hvs⟩ := ih st (fun x hx => hp x (List.mem_cons_of_mem s hx))
      exact ⟨v :: vs, by rw [srcVals, hv, hvs]⟩

theorem srcVals_getLast {G : Type} (p : String) :
    ∀ (ss : List (Element G)) (st : Store G) (vs : List Value)
      (s : Element G),
      srcVals st p ss = some vs → ss.getLast? = some s →
      ∃ v, getProp (elemProps st s) p = some v ∧ vs.getLast? = some v := by
  intro ss
  induction ss with
  | nil => intro st vs s _ hl; simp at hl
  | cons s0 rest ih =>
    intro st vs s hv hl
    rw [srcVals] at hv
    cases hv0 : getProp (elemProps st s0) p with
    | none => rw [hv0] at hv; simp at hv
    | some v0 =>
      rw [hv0] at hv
      cases hr : srcVals st p rest with
      | none => rw [hr] at hv; simp at hv
      | some vs0 =>
        rw [hr] at hv
        simp at hv
        subst hv
        cases rest with
        | nil =>
          simp at hl
          subst hl
          rw [srcVals] at hr
          simp at hr
          subst hr
          exact ⟨v0, hv0, rfl⟩
        | cons s1 rest2 =>
          rw [List.getLast?_cons_cons] at hl
          obtain ⟨v, hv1, hv2⟩ := ih st vs0 s hr hl
          refine ⟨v, hv1, ?_⟩
          cases vs0 with
          | nil => simp at hv2
          | cons w ws => rw [List.getLast?_cons_cons]; exact hv2

theorem intersecting_cons_empty {G : Type} (geo : GeoLib G)
    (s : Element G) (ss : List (Element G)) (t : G)
    (h : geo.isEmptyShape (geo.inter t s.shape) = true) :
    intersecting geo (s :: ss) t = intersecting geo ss t := by
  rw [intersecting, List.filter_cons]
  simp [h, intersecting]

theorem intersecting_cons_inter {G : Type} (geo : GeoLib G)
    (s : Element G) (ss : List (Element G)) (t : G)
    (h : geo.isEmptyShape (geo.inter t s.shape) = false) :
    intersecting geo (s :: ss) t = s :: intersecting geo ss t := by
  rw [intersecting, List.filter_cons]
  simp [h, intersecting]

theorem intersecting_subset {G : Type} (geo : GeoLib G)
    (ss : List (Element G)) (t : G) :
    ∀ x ∈ intersecting geo ss t, x ∈ ss := by
  intro x hx
  exact List.mem_of_mem_filter hx

end GeoAssigner

namespace GeoAssigner

theorem sourcesLoop_last {G : Type} (geo : GeoLib G) (p : String)
    (store0 : Store G) (tgt : Element G) (ti : Nat) :
    ∀ (srcs : List (Element G)) (st : Store G) (j : Nat) (vs : List Value),
      (∀ s ∈ srcs, elemProps st s = elemProps store0 s) →
      (∀ s ∈ srcs, s.featId ≠ tgt.featId) →
      tgt.featId < st.length →
      srcVals store0 p (intersecting geo srcs tgt.shape) = some vs →
      ∃ evs,
        sourcesLoop geo (LastValueStrategy G p) tgt ti st j srcs =
          (setFeatProps st tgt.featId
            (vs.foldl (fun a v => setProp a p v) (elemProps st tgt)),
           evs, none) := by
  intro srcs
  induction srcs with
  | nil =>
    intro st j vs _ _ _ hvs
    rw [show intersecting geo ([] : List (Element G)) tgt.shape = []
        from rfl, srcVals] at hvs
    simp at hvs
    subst hvs
    refine ⟨[], ?_⟩
    rw [sourcesLoop]
    simp only [List.foldl, elemProps]
    rw [setFeatProps_props_self]
  | cons src rest ih =>
    intro st j vs hagree hne hlt hvs
    rw [sourcesLoop]
    cases hEmp : geo.isEmptyShape (geo.inter tgt.shape src.shape) with
    | true =>
      rw [intersecting_cons_empty geo src rest tgt.shape hEmp] at hvs
      obtain ⟨evs, heq⟩ := ih st (j + 1) vs
        (fun s hs => hagree s (List.mem_cons_of_mem src hs))
        (fun s hs => hne s (List.mem_cons_of_mem src hs)) hlt hvs
      refine ⟨Event.intersectionTest ti j :: evs, ?_⟩
      simp only [hEmp, if_true, heq]
    | false =>
      rw [intersecting_cons_inter geo src rest tgt.shape hEmp] at hvs
      rw [srcVals] at hvs
      cases hv : getProp (elemProps store0 src) p with
      | none => rw [hv] at hvs; simp at hvs
      | some v =>
        rw [hv] at hvs
        cases hr : srcVals store0 p (intersecting geo rest tgt.shape) with
        | none => rw [hr] at hvs; simp at hvs
        | some vs2 =>
          rw [hr] at hvs
          simp at hvs
          subst hvs
          have hget : (LastValueStrategy G p).onIntersection st src tgt
              (geo.inter tgt.shape src.shape) =
              .ok (elemSet st tgt p v) := by
            rw [LastValueStrategy]
            simp only
            rw [elemGet, hagree src (by simp), hv]
          simp only [hEmp, Bool.false_eq_true, if_false, hget]
          have hlt2 : tgt.featId < (elemSet st tgt p v).length := by
            rw [elemSet_eq, setFeatProps_length]; exact hlt
          obtain ⟨evs, heq⟩ := ih (elemSet st tgt p v) (j + 1) vs2
            (fun s hs => by
              rw [elemSet_eq, elemProps_setFeatProps_ne st s tgt.featId _
                (hne s (List.mem_cons_of_mem src hs))]
              exact hagree s (List.mem_cons_of_mem src hs))
            (fun s hs => hne s (List.mem_cons_of_mem src hs)) hlt2 hr
          refine ⟨Event.intersectionTest ti j ::
            Event.intersectionHook ti j :: evs, ?_⟩
          rw [heq]
          have hprops : elemProps (elemSet st tgt p v) tgt =
              setProp (elemProps st tgt) p v := by
            rw [elemSet_eq, elemProps_setFeatProps_self st tgt _ hlt]
          rw [hprops, elemSet_eq, setFeatProps_setFeatProps]
          rfl

theorem sourcesLoop_list {G : Type} (geo : GeoLib G) (p : String)
    (store0 : Store G) (tgt : Element G) (ti : Nat) :
    ∀ (srcs : List (Element G)) (st : Store G) (j : Nat)
      (acc vs : List Value),
      (∀ s ∈ srcs, elemProps st s = elemProps store0 s) →
      (∀ s ∈ srcs, s.featId ≠ tgt.featId) →
      tgt.featId < st.length →
      srcVals store0 p (intersecting geo srcs tgt.shape) = some vs →
      getProp (elemProps st tgt) p = some (.vlist acc) →
      ∃ evs,
        sourcesLoop geo (ListValuesStrategy G p) tgt ti st j srcs =
          (setFeatProps st tgt.featId
            (setProp (elemProps st tgt) p (.vlist (acc ++ vs))),
           evs, none) := by
  intro srcs
  induction srcs with
  | nil =>
    intro st j acc vs _ _ _ hvs hacc
    rw [show intersecting geo ([] : List (Element G)) tgt.shape = []
        from rfl, srcVals] at hvs
    simp at hvs
    subst hvs
    refine ⟨[], ?_⟩
    rw [sourcesLoop]
    rw [List.append_nil, setProp_of_getProp_eq _ _ _ hacc]
    simp only [elemProps]
    rw [setFeatProps_props_self]
  | cons src rest ih =>
    intro st j acc vs hagree hne hlt hvs hacc
    rw [sourcesLoop]
    cases hEmp : geo.isEmptyShape (geo.inter tgt.shape src.shape) with
    | true =>
      rw [intersecting_cons_empty geo src rest tgt.shape hEmp] at hvs
      obtain ⟨evs, heq⟩ := ih st (j + 1) acc vs
        (fun s hs => hagree s (List.mem_cons_of_mem src hs))
        (fun s hs => hne s (List.mem_cons_of_mem src hs)) hlt hvs hacc
      refine ⟨Event.intersectionTest ti j :: evs, ?_⟩
      simp only [hEmp, if_true, heq]
    | false =>
      rw [intersecting_cons_inter geo src rest tgt.shape hEmp] at hvs
      rw [srcVals] at hvs
      cases hv : getProp (elemProps store0 src) p with
      | none => rw [hv] at hvs; simp at hvs
      | some v =>
        rw [hv] at hvs
        cases hr : srcVals store0 p (intersecting geo rest tgt.shape) with
        | none => rw [hr] at hvs; simp at hvs
        | some vs2 =>
          rw [hr] at hvs
          simp at hvs
          subst hvs
          have hget : (ListValuesStrategy G p).onIntersection st src tgt
              (geo.inter tgt.shape src.shape) =
              .ok (elemSet st tgt p (.vlist (acc ++ [v]))) := by
            rw [ListValuesStrategy]
            simp only
            rw [elemGet, hacc]
            simp only
            rw [elemGet, hagree src (by simp), hv]
          simp only [hEmp, Bool.false_eq_true, if_false, hget]
          have hlt2 : tgt.featId <
              (elemSet st tgt p (.vlist (acc ++ [v]))).length := by
            rw [elemSet_eq, setFeatProps_length]; exact hlt
          have hacc2 : getProp
              (elemProps (elemSet st tgt p (.vlist (acc ++ [v]))) tgt) p =
              some (.vlist (acc ++ [v])) := by
            rw [elemSet_eq, elemProps_setFeatProps_self st tgt _ hlt]
            exact getProp_setProp_self _ _ _
          obtain ⟨evs, heq⟩ := ih (elemSet st tgt p (.vlist (acc ++ [v])))
            (j + 1) (acc ++ [v]) vs2
            (fun s hs => by
              rw [elemSet_eq, elemProps_setFeatProps_ne st s tgt.featId _
                (hne s (List.mem_cons_of_mem src hs))]
              exact hagree s (List.mem_cons_of_mem src hs))
            (fun s hs => hne s (List.mem_cons_of_mem src hs)) hlt2 hr hacc2
          refine ⟨Event.intersectionTest ti j ::
            Event.intersectionHook ti j :: evs, ?_⟩
          rw [heq]
          have hprops : elemProps (elemSet st tgt p (.vlist (acc ++ [v]))) tgt =
              setProp (elemProps st tgt) p (.vlist (acc ++ [v])) := by
            rw [elemSet_eq, elemProps_setFeatProps_self st tgt _ hlt]
          rw [hprops, setProp_setProp, elemSet_eq, setFeatProps_setFeatProps]
          simp [List.append_assoc]

end GeoAssigner

namespace GeoAssigner

theorem processTarget_last {G : Type} (geo : GeoLib G) (p : String)
    (store0 : Store G) (sources : List (Element G)) (prog : Bool)
    (n ti : Nat) (st : Store G) (tgt : Element G) (vs : List Value)
    (hagree : ∀ s ∈ sources, elemProps st s = elemProps store0 s)
    (hne : ∀ s ∈ sources, s.featId ≠ tgt.featId)
    (hlt : tgt.featId < st.length)
    (hvs : srcVals store0 p (intersecting geo sources tgt.shape) = some vs) :
    ∃ evs, processTarget geo (LastValueStrategy G p) sources prog n ti st tgt =
      (setFeatProps st tgt.featId (lastFold p vs (elemProps st tgt)),
       evs, none) := by
  rw [processTarget, lastBegin_ok]
  simp only
  have hlt1 : tgt.featId <
      (setFeatProps st tgt.featId (delProp (elemProps st tgt) p)).length := by
    rw [setFeatProps_length]; exact hlt
  obtain ⟨evs, heq⟩ := sourcesLoop_last geo p store0 tgt ti sources
    (setFeatProps st tgt.featId (delProp (elemProps st tgt) p)) 0 vs
    (fun s hs => by
      rw [elemProps_setFeatProps_ne st s tgt.featId _ (hne s hs)]
      exact hagree s hs)
    hne hlt1 hvs
  rw [heq]
  simp only
  refine ⟨(if prog then [Event.progress ti n] else []) ++
    Event.beginHook ti :: evs ++ [Event.endHook ti], ?_⟩
  have hp2 : elemProps (setFeatProps st tgt.featId
      (delProp (elemProps st tgt) p)) tgt = delProp (elemProps st tgt) p :=
    elemProps_setFeatProps_self st tgt _ hlt
  rw [hp2, setFeatProps_setFeatProps]
  rw [show (LastValueStrategy G p).onEnd = fun st _ => .ok st from rfl]
  rfl

theorem processTarget_list {G : Type} (geo : GeoLib G) (p : String)
    (store0 : Store G) (sources : List (Element G)) (prog : Bool)
    (n ti : Nat) (st : Store G) (tgt : Element G) (vs : List Value)
    (hagree : ∀ s ∈ sources, elemProps st s = elemProps store0 s)
    (hne : ∀ s ∈ sources, s.featId ≠ tgt.featId)
    (hlt : tgt.featId < st.length)
    (hvs : srcVals store0 p (intersecting geo sources tgt.shape) = some vs) :
    ∃ evs, processTarget geo (ListValuesStrategy G p) sources prog n ti st tgt =
      (setFeatProps st tgt.featId (listFold p vs (elemProps st tgt)),
       evs, none) := by
  rw [processTarget, listBegin_ok]
  simp only
  have hlt1 : tgt.featId < (setFeatProps st tgt.featId
      (setProp (elemProps st tgt) p (.vlist []))).length := by
    rw [setFeatProps_length]; exact hlt
  have hacc : getProp (elemProps (setFeatProps st tgt.featId
      (setProp (elemProps st tgt) p (.vlist []))) tgt) p =
      some (.vlist []) := by
    rw [elemProps_setFeatProps_self st tgt _ hlt]
    exact getProp_setProp_self _ _ _
  obtain ⟨evs, heq⟩ := sourcesLoop_list geo p store0 tgt ti sources
    (setFeatProps st tgt.featId (setProp (elemProps st tgt) p (.vlist [])))
    0 [] vs
    (fun s hs => by
      rw [elemProps_setFeatProps_ne st s tgt.featId _ (hne s hs)]
      exact hagree s hs)
    hne hlt1 hvs hacc
  rw [heq]
  simp only
  refine ⟨(if prog then [Event.progress ti n] else []) ++
    Event.beginHook ti :: evs ++ [Event.endHook ti], ?_⟩
  have hp2 : elemProps (setFeatProps st tgt.featId
      (setProp (elemProps st tgt) p (.vlist []))) tgt =
      setProp (elemProps st tgt) p (.vlist []) :=
    elemProps_setFeatProps_self st tgt _ hlt
  rw [hp2, setProp_setProp, setFeatProps_setFeatProps]
  rw [show (ListValuesStrategy G p).onEnd = fun st _ => .ok st from rfl]
  rw [show ([] : List Value) ++ vs = vs from rfl]
  rfl

theorem targetsLoop_ok {G : Type} (geo : GeoLib G) (strat : Strategy G)
    (sources : List (Element G)) (prog : Bool) (n : Nat) (store0 : Store G)
    (O : Element G → Props → Props)
    (HO : ∀ t q, O t (O t q) = O t q) :
    ∀ (tgts : List (Element G)) (st : Store G) (ti : Nat),
      (∀ (st2 : Store G) (ti2 : Nat) (tgt : Element G), tgt ∈ tgts →
        (∀ s ∈ sources, elemProps st2 s = elemProps store0 s) →
        tgt.featId < st2.length →
        ∃ evs, processTarget geo strat sources prog n ti2 st2 tgt =
          (setFeatProps st2 tgt.featId (O tgt (elemProps st2 tgt)),
           evs, none)) →
      (∀ s ∈ sources, elemProps st s = elemProps store0 s) →
      (∀ s ∈ sources, ∀ t ∈ tgts, s.featId ≠ t.featId) →
      (∀ t ∈ tgts, t.featId < st.length) →
      (∀ t1 ∈ tgts, ∀ t2 ∈ tgts, t1.featId = t2.featId → t1 = t2) →
      ∃ evs st',
        targetsLoop geo strat sources prog n st ti tgts = (st', evs, none) ∧
        st'.length = st.length ∧
        (∀ j, j ∉ tgts.map Element.featId → getFeat st' j = getFeat st j) ∧
        (∀ t ∈ tgts, getFeat st' t.featId =
          ⟨(getFeat st t.featId).geometry, O t (elemProps st t)⟩) := by
  intro tgts
  induction tgts with
  | nil =>
    intro st ti _ _ _ _ _
    exact ⟨[], st, rfl, rfl, fun j _ => rfl, by simp⟩
  | cons tgt rest ih =>
    intro st ti HPT hagree hne hlt huniq
    obtain ⟨evsA, heqA⟩ := HPT st ti tgt (by simp) hagree (hlt tgt (by simp))
    have hlt0 : tgt.featId < st.length := hlt tgt (by simp)
    obtain ⟨evsB, st', heqB, hlen, hframe, houtcome⟩ :=
      ih (setFeatProps st tgt.featId (O tgt (elemProps st tgt))) (ti + 1)
        (fun st2 ti2 t ht => HPT st2 ti2 t (List.mem_cons_of_mem tgt ht))
        (fun s hs => by
          rw [elemProps_setFeatProps_ne st s tgt.featId _
            (hne s hs tgt (by simp))]
          exact hagree s hs)
        (fun s hs t ht => hne s hs t (List.mem_cons_of_mem tgt ht))
        (fun t ht => by
          rw [setFeatProps_length]
          exact hlt t (List.mem_cons_of_mem tgt ht))
        (fun t1 h1 t2 h2 => huniq t1 (List.mem_cons_of_mem tgt h1)
          t2 (List.mem_cons_of_mem tgt h2))
    refine ⟨evsA ++ evsB, st', ?_, ?_, ?_, ?_⟩
    · rw [targetsLoop, heqA]
      simp only
      rw [heqB]
    · rw [hlen, setFeatProps_length]
    · intro j hj
      have hj1 : j ≠ tgt.featId := by
        intro hc
        exact hj (by rw [hc]; simp)
      have hj2 : j ∉ rest.map Element.featId := by
        intro hc
        exact hj (by simp at hc ⊢; right; exact hc)
      rw [hframe j hj2, getFeat_setFeatProps_ne st tgt.featId j _ hj1]
    · intro t ht
      by_cases hfid : t.featId = tgt.featId
      · have hteq : t = tgt := huniq t ht tgt (by simp) hfid
        subst hteq
        by_cases hmem : t ∈ rest
        · have := houtcome t hmem
          rw [this, getFeat_setFeatProps_self st t.featId _ hlt0,
            elemProps_setFeatProps_self st t _ hlt0, HO]
        · have hnm : t.featId ∉ rest.map Element.featId := by
            intro hc
            simp at hc
            obtain ⟨t2, ht2, hfe⟩ := hc
            have : t2 = t := huniq t2 (List.mem_cons_of_mem t ht2)
              t (by simp) hfe
            subst this
            exact hmem ht2
          rw [hframe t.featId hnm,
            getFeat_setFeatProps_self st t.featId _ hlt0]
      · have hmem : t ∈ rest := by
          rcases List.mem_cons.mp ht with h | h
          · exact absurd (by rw [h]) hfid
          · exact h
        rw [houtcome t hmem,
          getFeat_setFeatProps_ne st tgt.featId t.featId _ hfid,
          elemProps_setFeatProps_ne st t tgt.featId _ hfid]

end GeoAssigner

namespace GeoAssigner

theorem assign_last_ok {G : Type} (geo : GeoLib G) (st0 : Store G)
    (srcIds tgtIds : List Nat) (p : String) (prog : Bool)
    (sources targets : List (Element G))
    (hsrc : toElements st0 srcIds = some sources)
    (htgt : toElements st0 tgtIds = some targets)
    (hdisj : ∀ i ∈ srcIds, i ∉ tgtIds)
    (hpres : ∀ t ∈ targets, ∀ s ∈ intersecting geo sources t.shape,
      (getProp (elemProps st0 s) p).isSome = true) :
    ∃ st' evs,
      assign geo st0 srcIds tgtIds (LastValueStrategy G p) prog =
        ⟨st', evs, none⟩ ∧
      st'.length = st0.length ∧
      (∀ j, j ∉ tgtIds → getFeat st' j = getFeat st0 j) ∧
      (∀ t ∈ targets, ∃ vs,
        srcVals st0 p (intersecting geo sources t.shape) = some vs ∧
        getFeat st' t.featId =
          ⟨(getFeat st0 t.featId).geometry,
           lastFold p vs (elemProps st0 t)⟩) := by
  have hne : ∀ s ∈ sources, ∀ t ∈ targets, s.featId ≠ t.featId := by
    intro s hs t ht hc
    exact hdisj s.featId
      (toElements_mem_featId srcIds st0 sources hsrc s hs)
      (hc ▸ toElements_mem_featId tgtIds st0 targets htgt t ht)
  obtain ⟨evs, st', heqLoop, hlen, hframe, hout⟩ :=
    targetsLoop_ok geo (LastValueStrategy G p) sources prog targets.length
      st0
      (fun t q =>
        lastFold p ((srcVals st0 p (intersecting geo sources t.shape)).getD
          []) q)
      (fun t q => lastFold_lastFold p _ q)
      targets st0 0
      (fun st2 ti2 tgt htm hag hlt2 => by
        obtain ⟨vs, hvs⟩ := srcVals_isSome_of_present p
          (intersecting geo sources tgt.shape) st0 (hpres tgt htm)
        obtain ⟨evs2, heq2⟩ := processTarget_last geo p st0 sources prog
          targets.length ti2 st2 tgt vs hag (fun s hs => hne s hs tgt htm)
          hlt2 hvs
        refine ⟨evs2, ?_⟩
        rw [heq2]
        simp only [hvs, Option.getD_some])
      (fun s _ => rfl) hne
      (toElements_featId_lt tgtIds st0 targets htgt)
      (toElements_elem_eta tgtIds st0 targets htgt)
  refine ⟨st', evs, ?_, hlen, ?_, ?_⟩
  · rw [assign, hsrc, htgt]
    simp only
    rw [heqLoop]
  · intro j hj
    apply hframe
    intro hc
    simp only [List.mem_map] at hc
    obtain ⟨t, ht, hfe⟩ := hc
    exact hj (hfe ▸ toElements_mem_featId tgtIds st0 targets htgt t ht)
  · intro t ht
    obtain ⟨vs, hvs⟩ := srcVals_isSome_of_present p
      (intersecting geo sources t.shape) st0 (hpres t ht)
    refine ⟨vs, hvs, ?_⟩
    rw [hout t ht]
    simp only [hvs, Option.getD_some]

theorem assign_list_ok {G : Type} (geo : GeoLib G) (st0 : Store G)
    (srcIds tgtIds : List Nat) (p : String) (prog : Bool)
    (sources targets : List (Element G))
    (hsrc : toElements st0 srcIds = some sources)
    (htgt : toElements st0 tgtIds = some targets)
    (hdisj : ∀ i ∈ srcIds, i ∉ tgtIds)
    (hpres : ∀ t ∈ targets, ∀ s ∈ intersecting geo sources t.shape,
      (getProp (elemProps st0 s) p).isSome = true) :
    ∃ st' evs,
      assign geo st0 srcIds tgtIds (ListValuesStrategy G p) prog =
        ⟨st', evs, none⟩ ∧
      st'.length = st0.length ∧
      (∀ j, j ∉ tgtIds → getFeat st' j = getFeat st0 j) ∧
      (∀ t ∈ targets, ∃ vs,
        srcVals st0 p (intersecting geo sources t.shape) = some vs ∧
        getFeat st' t.featId =
          ⟨(getFeat st0 t.featId).geometry,
           listFold p vs (elemProps st0 t)⟩) := by
  have hne : ∀ s ∈ sources, ∀ t ∈ targets, s.featId ≠ t.featId := by
    intro s hs t ht hc
    exact hdisj s.featId
      (toElements_mem_featId srcIds st0 sources hsrc s hs)
      (hc ▸ toElements_mem_featId tgtIds st0 targets htgt t ht)
  obtain ⟨evs, st', heqLoop, hlen, hframe, hout⟩ :=
    targetsLoop_ok geo (ListValuesStrategy G p) sources prog targets.length
      st0
      (fun t q =>
        listFold p ((srcVals st0 p (intersecting geo sources t.shape)).getD
          []) q)
      (fun t q => listFold_listFold p _ q)
      targets st0 0
      (fun st2 ti2 tgt htm hag hlt2 => by
        obtain ⟨vs, hvs⟩ := srcVals_isSome_of_present p
          (intersecting geo sources tgt.shape) st0 (hpres tgt htm)
        obtain ⟨evs2, heq2⟩ := processTarget_list geo p st0 sources prog
          targets.length ti2 st2 tgt vs hag (fun s hs => hne s hs tgt htm)
          hlt2 hvs
        refine ⟨evs2, ?_⟩
        rw [heq2]
        simp only [hvs, Option.getD_some])
      (fun s _ => rfl) hne
      (toElements_featId_lt tgtIds st0 targets htgt)
      (toElements_elem_eta tgtIds st0 targets htgt)
  refine ⟨st', evs, ?_, hlen, ?_, ?_⟩
  · rw [assign, hsrc, htgt]
    simp only
    rw [heqLoop]
  · intro j hj
    apply hframe
    intro hc
    simp only [List.mem_map] at hc
    obtain ⟨t, ht, hfe⟩ := hc
    exact hj (hfe ▸ toElements_mem_featId tgtIds st0 targets htgt t ht)
  · intro t ht
    obtain ⟨vs, hvs⟩ := srcVals_isSome_of_present p
      (intersecting geo sources t.shape) st0 (hpres t ht)
    refine ⟨vs, hvs, ?_⟩
    rw [hout t ht]
    simp only [hvs, Option.getD_some]

end GeoAssigner

namespace GeoAssigner

theorem sourcesLoop_base {G : Type} (geo : GeoLib G) (p : String)
    (tgt : Element G) (ti : Nat) :
    ∀ (srcs : List (Element G)) (st : Store G) (j : Nat),
      (sourcesLoop geo (baseStrategy G p) tgt ti st j srcs).1 = st ∧
      (sourcesLoop geo (baseStrategy G p) tgt ti st j srcs).2.2 = none := by
  intro srcs
  induction srcs with
  | nil => intro st j; exact ⟨rfl, rfl⟩
  | cons src rest ih =>
    intro st j
    rw [sourcesLoop]
    cases hEmp : geo.isEmptyShape (geo.inter tgt.shape src.shape) with
    | true => simpa [hEmp] using ih st (j + 1)
    | false =>
      rw [show (baseStrategy G p).onIntersection st src tgt
          (geo.inter tgt.shape src.shape) = .ok st from rfl]
      simpa [hEmp] using ih st (j + 1)

theorem processTarget_base {G : Type} (geo : GeoLib G) (p : String)
    (sources : List (Element G)) (prog : Bool) (n ti : Nat)
    (st : Store G) (tgt : Element G) :
    (processTarget geo (baseStrategy G p) sources prog n ti st tgt).1 = st ∧
    (processTarget geo (baseStrategy G p) sources prog n ti st tgt).2.2 =
      none := by
  rw [processTarget]
  rw [show (baseStrategy G p).onBegin st tgt = .ok st from rfl]
  simp only
  obtain ⟨h1, h2⟩ := sourcesLoop_base geo p tgt ti sources st 0
  rw [h2]
  simp only
  rw [h1]
  rw [show (baseStrategy G p).onEnd st tgt = .ok st from rfl]
  exact ⟨rfl, rfl⟩

theorem targetsLoop_base {G : Type} (geo : GeoLib G) (p : String)
    (sources : List (Element G)) (prog : Bool) (n : Nat) :
    ∀ (tgts : List (Element G)) (st : Store G) (ti : Nat),
      (targetsLoop geo (baseStrategy G p) sources prog n st ti tgts).1 = st ∧
      (targetsLoop geo (baseStrategy G p) sources prog n st ti tgts).2.2 =
        none := by
  intro tgts
  induction tgts with
  | nil => intro st ti; exact ⟨rfl, rfl⟩
  | cons tgt rest ih =>
    intro st ti
    rw [targetsLoop]
    obtain ⟨h1, h2⟩ := processTarget_base geo p sources prog n ti st tgt
    rw [h2]
    simp only
    rw [h1]
    exact ih st (ti + 1)

/-- C9: running `assign` with an instance of the base `Strategy` class
(all three hooks are `pass`) leaves the store — and with it every target
feature's geometry and property mapping — unchanged, on every input. -/
theorem assign_base_identity {G : Type} (geo : GeoLib G) (st : Store G)
    (srcIds tgtIds : List Nat) (p : String) (prog : Bool) :
    (assign geo st srcIds tgtIds (baseStrategy G p) prog).store = st := by
  rw [assign]
  cases hs : toElements st srcIds with
  | none => rfl
  | some sources =>
    cases ht : toElements st tgtIds with
    | none => rfl
    | some targets =>
      simp only
      exact (targetsLoop_base geo p sources prog targets.length targets
        st 0).1

theorem toElements_none_of_malformed {G : Type} :
    ∀ (ids : List Nat) (st : Store G) (i : Nat), i ∈ ids →
      asShape (getFeat st i).geometry = none → toElements st ids = none := by
  intro ids
  induction ids with
  | nil => intro st i hi _; simp at hi
  | cons i0 rest ih =>
    intro st i hi hbad
    rcases List.mem_cons.mp hi with h | h
    · subst h
      rw [toElements, hbad]
    · rw [toElements]
      cases hg : asShape (getFeat st i0).geometry with
      | none => rfl
      | some g => rw [ih st i h hbad]

/-- C3: if any feature referenced by either collection has an
unparsable geometry, `assign` fails with the geometry-parse error during
element conversion: the store is returned untouched and no progress call
or strategy hook was invoked (the event trace is empty).  This holds for
every strategy. -/
theorem assign_parse_failure {G : Type} (geo : GeoLib G) (st0 : Store G)
    (srcIds tgtIds : List Nat) (strat : Strategy G) (prog : Bool)
    (h : ∃ i ∈ srcIds ++ tgtIds, asShape (getFeat st0 i).geometry = none) :
    assign geo st0 srcIds tgtIds strat prog =
      ⟨st0, [], some .geometryParse⟩ := by
  obtain ⟨i, hi, hbad⟩ := h
  rcases List.mem_append.mp hi with hi | hi
  · rw [assign, toElements_none_of_malformed srcIds st0 i hi hbad]
  · rw [assign]
    cases hs : toElements st0 srcIds with
    | none => rfl
    | some sources =>
      rw [toElements_none_of_malformed tgtIds st0 i hi hbad]

/-- C3 witness: a malformed geometry among the sources aborts the run
with no mutation and no events. -/
theorem assign_parse_failure_witness :
    (∃ i ∈ [0, 1] ++ [0], asShape (getFeat badGeomStore i).geometry = none) ∧
    assign natGeo badGeomStore [0, 1] [0]
        (LastValueStrategy (List Nat) "p") false =
      ⟨badGeomStore, [], some .geometryParse⟩ := by
  refine ⟨⟨1, by decide, by decide⟩, ?_⟩
  exact assign_parse_failure natGeo badGeomStore [0, 1] [0]
    (LastValueStrategy (List Nat) "p") false ⟨1, by decide, by decide⟩

/-- C8: deleting through the `Element` facade raises `KeyError`
(PropertyNotFound) exactly when the key is absent and removes the key
when present; `LastValueStrategy.begin` never fails — it swallows the
`KeyError` — and afterwards the bound property is absent in both cases. -/
theorem element_delete_begin_spec {G : Type} (k : String) :
    (∀ (st : Store G) (e : Element G), getProp (elemProps st e) k = none →
      elemDel st e k = .error (.propertyNotFound k)) ∧
    (∀ (st : Store G) (e : Element G) (v : Value),
      getProp (elemProps st e) k = some v →
      elemDel st e k =
        .ok (setFeatProps st e.featId (delProp (elemProps st e) k)) ∧
      getProp (elemProps
        (setFeatProps st e.featId (delProp (elemProps st e) k)) e) k =
        none) ∧
    (∀ (st : Store G) (e : Element G), ∃ st2,
      (LastValueStrategy G k).onBegin st e = .ok st2 ∧
      getProp (elemProps st2 e) k = none) := by
  refine ⟨?_, ?_, ?_⟩
  · intro st e h
    rw [elemDel, h]
  · intro st e v h
    have hlt : e.featId < st.length := by
      by_contra hc
      rw [elemProps, getFeat_oob st e.featId (by omega)] at h
      simp [defaultFeature, getProp] at h
    constructor
    · rw [elemDel, h]
      rfl
    · rw [elemProps_setFeatProps_self st e _ hlt]
      exact getProp_delProp _ k
  · intro st e
    refine ⟨setFeatProps st e.featId (delProp (elemProps st e) k),
      lastBegin_ok st e k, ?_⟩
    cases h : getProp (elemProps st e) k with
    | none =>
      rw [delProp_of_getProp_none _ _ h]
      simp only [elemProps]
      rw [setFeatProps_props_self]
      exact h
    | some v =>
      have hlt : e.featId < st.length := by
        by_contra hc
        rw [elemProps, getFeat_oob st e.featId (by omega)] at h
        simp [defaultFeature, getProp] at h
      rw [elemProps_setFeatProps_self st e _ hlt]
      exact getProp_delProp _ k

/-- C8 witness: concrete instances of all three parts — deleting the
absent key fails, deleting the present key removes it, and
`LastValueStrategy.begin` succeeds on an element lacking the key. -/
theorem element_delete_begin_spec_witness :
    (getProp (elemProps okStore (Element.mk 2 [2])) "p" = none ∧
      elemDel okStore (Element.mk 2 [2]) "p" =
        .error (.propertyNotFound "p")) ∧
    (getProp (elemProps okStore (Element.mk 0 [1])) "p" =
        some (.num 10) ∧
      getProp (elemProps (setFeatProps okStore 0
        (delProp (elemProps okStore (Element.mk 0 [1])) "p"))
        (Element.mk 0 [1])) "p" = none) ∧
    (∃ st2, (LastValueStrategy (List Nat) "p").onBegin okStore
        (Element.mk 2 [2]) = .ok st2 ∧
      getProp (elemProps st2 (Element.mk 2 [2])) "p" = none) := by
  refine ⟨⟨by decide, ?_⟩, ⟨by decide, ?_⟩, ?_⟩
  · exact (element_delete_begin_spec "p").1 okStore (Element.mk 2 [2])
      (by decide)
  · exact ((element_delete_begin_spec "p").2.1 okStore (Element.mk 0 [1])
      (.num 10) (by decide)).2
  · exact (element_delete_begin_spec "p").2.2 okStore (Element.mk 2 [2])

end GeoAssigner

namespace GeoAssigner

/-- C1 counterexample: with the aliased input `cexStore` (feature 1 is
both a source and a target) the run completes, yet target feature 2
carries `p = 20` while its last intersecting source (feature 1) ends
with `p = 10`: the claim as stated is false. -/
theorem lastValue_claim_cex :
    ¬ LastClaimHolds natGeo cexStore [0, 1] [2, 1] "p" false := by
  intro h
  have h1 := h [Element.mk 0 [1], Element.mk 1 [1, 2]]
    [Element.mk 2 [2], Element.mk 1 [1, 2]] (by decide) (by decide)
    (by decide)
  have h2 := (h1 (Element.mk 2 [2]) (by decide)).2 (Element.mk 1 [1, 2])
    (by decide)
  obtain ⟨v, hv1, hv2⟩ := h2
  have e1 : getProp (elemProps
      (assign natGeo cexStore [0, 1] [2, 1]
        (LastValueStrategy (List Nat) "p") false).store
      (Element.mk 1 [1, 2])) "p" = some (.num 10) := by decide
  have e2 : getProp (elemProps
      (assign natGeo cexStore [0, 1] [2, 1]
        (LastValueStrategy (List Nat) "p") false).store
      (Element.mk 2 [2])) "p" = some (.num 20) := by decide
  rw [e1] at hv1
  rw [e2] at hv2
  rw [← hv1] at hv2
  exact absurd hv2 (by decide)

theorem getLast?_mem_list {A : Type _} :
    ∀ (l : List A) (a : A), l.getLast? = some a → a ∈ l := by
  intro l
  induction l with
  | nil => intro a h; simp at h
  | cons x xs ih =>
    intro a h
    cases xs with
    | nil => simp at h; simp [h]
    | cons y ys =>
      rw [List.getLast?_cons_cons] at h
      exact List.mem_cons_of_mem x (ih a h)

/-- C1 (amended): when the source and target collections share no
feature and every source intersecting some target carries the bound
property, the `LastValueStrategy` run completes and the claimed net
effect holds: each target carries the value of its last intersecting
source, or has the property absent when no source intersects it. -/
theorem lastValue_net_effect {G : Type} (geo : GeoLib G) (st0 : Store G)
    (srcIds tgtIds : List Nat) (p : String) (prog : Bool)
    (sources targets : List (Element G))
    (hsrc : toElements st0 srcIds = some sources)
    (htgt : toElements st0 tgtIds = some targets)
    (hdisj : ∀ i ∈ srcIds, i ∉ tgtIds)
    (hpres : ∀ t ∈ targets, ∀ s ∈ intersecting geo sources t.shape,
      (getProp (elemProps st0 s) p).isSome = true) :
    (assign geo st0 srcIds tgtIds (LastValueStrategy G p) prog).error =
      none ∧
    LastClaimHolds geo st0 srcIds tgtIds p prog := by
  obtain ⟨st', evs, heq, hlen, hframe, hout⟩ :=
    assign_last_ok geo st0 srcIds tgtIds p prog sources targets hsrc htgt
      hdisj hpres
  refine ⟨by rw [heq], ?_⟩
  intro sources2 targets2 hs2 ht2 _
  rw [hsrc] at hs2
  rw [htgt] at ht2
  injection hs2 with hs2
  injection ht2 with ht2
  subst hs2
  subst ht2
  intro tgt htm
  obtain ⟨vs, hvs, hfeat⟩ := hout tgt htm
  constructor
  · intro hempty
    rw [hempty, srcVals] at hvs
    have hv0 : vs = [] := by injection hvs.symm
    subst hv0
    rw [heq]
    simp only [elemProps]
    rw [hfeat]
    simp only
    rw [show lastFold p [] (elemProps st0 tgt) =
        delProp (elemProps st0 tgt) p from rfl]
    exact getProp_delProp _ p
  · intro s hlast
    obtain ⟨v, hv1, hv2⟩ := srcVals_getLast p
      (intersecting geo sources tgt.shape) st0 vs s hvs hlast
    have hsmem : s ∈ sources :=
      intersecting_subset geo sources tgt.shape s
        (getLast?_mem_list _ s hlast)
    have hsfid : s.featId ∉ tgtIds :=
      hdisj s.featId (toElements_mem_featId srcIds st0 sources hsrc s hsmem)
    refine ⟨v, ?_, ?_⟩
    · rw [heq]
      simp only [elemProps]
      rw [hframe s.featId hsfid]
      exact hv1
    · rw [heq]
      simp only [elemProps]
      rw [hfeat]
      simp only [lastFold]
      cases vs with
      | nil => simp at hv2
      | cons w ws =>
        exact getProp_foldl_setProp p (w :: ws) _ v hv2

/-- C1 witness: a disjoint run on `okStore` discharging all hypotheses
of the amended theorem. -/
theorem lastValue_net_effect_witness :
    (∀ i ∈ [0, 1], i ∉ [2, 3]) ∧
    (assign natGeo okStore [0, 1] [2, 3]
        (LastValueStrategy (List Nat) "p") false).error = none ∧
    LastClaimHolds natGeo okStore [0, 1] [2, 3] "p" false :=
  ⟨by decide,
   lastValue_net_effect natGeo okStore [0, 1] [2, 3] "p" false
     [Element.mk 0 [1], Element.mk 1 [1, 2]]
     [Element.mk 2 [2], Element.mk 3 [5]]
     (by decide) (by decide) (by decide) (by decide)⟩

/-- C2 counterexample: with the aliased input `cexStore` the
`ListValuesStrategy` run completes, yet target feature 2 carries
`p = [20]` while the claim (values read off the final state, where the
shared feature 1 was reset and rebuilt) demands a different sequence:
the claim as stated is false. -/
theorem listValues_claim_cex :
    ¬ ListClaimHolds natGeo cexStore [0, 1] [2, 1] "p" false := by
  intro h
  have h1 := h [Element.mk 0 [1], Element.mk 1 [1, 2]]
    [Element.mk 2 [2], Element.mk 1 [1, 2]] (by decide) (by decide)
    (by decide)
  obtain ⟨vs, hva, hvb⟩ := h1 (Element.mk 2 [2]) (by decide)
  have e1 : srcVals
      (assign natGeo cexStore [0, 1] [2, 1]
        (ListValuesStrategy (List Nat) "p") false).store "p"
      (intersecting natGeo [Element.mk 0 [1], Element.mk 1 [1, 2]]
        (Element.mk 2 [2]).shape) =
      some [.vlist [.num 10, .vlist [.num 10]]] := by decide
  have e2 : getProp (elemProps
      (assign natGeo cexStore [0, 1] [2, 1]
        (ListValuesStrategy (List Nat) "p") false).store
      (Element.mk 2 [2])) "p" = some (.vlist [.num 20]) := by decide
  rw [e1] at hva
  have hv0 : vs = [.vlist [.num 10, .vlist [.num 10]]] := by
    injection hva.symm
  subst hv0
  rw [e2] at hvb
  exact absurd hvb (by decide)

/-- C2 (amended): when the source and target collections share no
feature and every source intersecting some target carries the bound
property, the `ListValuesStrategy` run completes and each target's
property is exactly the ordered sequence of its intersecting sources'
values, in collection order, empty when none intersect. -/
theorem listValues_net_effect {G : Type} (geo : GeoLib G) (st0 : Store G)
    (srcIds tgtIds : List Nat) (p : String) (prog : Bool)
    (sources targets : List (Element G))
    (hsrc : toElements st0 srcIds = some sources)
    (htgt : toElements st0 tgtIds = some targets)
    (hdisj : ∀ i ∈ srcIds, i ∉ tgtIds)
    (hpres : ∀ t ∈ targets, ∀ s ∈ intersecting geo sources t.shape,
      (getProp (elemProps st0 s) p).isSome = true) :
    (assign geo st0 srcIds tgtIds (ListValuesStrategy G p) prog).error =
      none ∧
    ListClaimHolds geo st0 srcIds tgtIds p prog := by
  obtain ⟨st', evs, heq, hlen, hframe, hout⟩ :=
    assign_list_ok geo st0 srcIds tgtIds p prog sources targets hsrc htgt
      hdisj hpres
  refine ⟨by rw [heq], ?_⟩
  intro sources2 targets2 hs2 ht2 _
  rw [hsrc] at hs2
  rw [htgt] at ht2
  injection hs2 with hs2
  injection ht2 with ht2
  subst hs2
  subst ht2
  intro tgt htm
  obtain ⟨vs, hvs, hfeat⟩ := hout tgt htm
  refine ⟨vs, ?_, ?_⟩
  · rw [heq]
    simp only
    rw [srcVals_congr p (intersecting geo sources tgt.shape) st' st0 ?_]
    · exact hvs
    · intro s hs
      have hsmem : s ∈ sources := intersecting_subset geo sources
        tgt.shape s hs
      have hsfid : s.featId ∉ tgtIds :=
        hdisj s.featId
          (toElements_mem_featId srcIds st0 sources hsrc s hsmem)
      simp only [elemProps]
      rw [hframe s.featId hsfid]
  · rw [heq]
    simp only [elemProps]
    rw [hfeat]
    exact getProp_listFold p vs _

/-- C2 witness: a disjoint run on `okStore` discharging all hypotheses
of the amended theorem. -/
theorem listValues_net_effect_witness :
    (∀ i ∈ [0, 1], i ∉ [2, 3]) ∧
    (assign natGeo okStore [0, 1] [2, 3]
        (ListValuesStrategy (List Nat) "p") false).error = none ∧
    ListClaimHolds natGeo okStore [0, 1] [2, 3] "p" false :=
  ⟨by decide,
   listValues_net_effect natGeo okStore [0, 1] [2, 3] "p" false
     [Element.mk 0 [1], Element.mk 1 [1, 2]]
     [Element.mk 2 [2], Element.mk 3 [5]]
     (by decide) (by decide) (by decide) (by decide)⟩

end GeoAssigner

namespace GeoAssigner

theorem lastBegin_frame {G : Type} (p : String) (st : Store G)
    (tgt : Element G) (st' : Store G)
    (h : (LastValueStrategy G p).onBegin st tgt = .ok st') :
    ∀ j, j ≠ tgt.featId → getFeat st' j = getFeat st j := by
  rw [lastBegin_ok] at h
  injection h with h
  subst h
  intro j hj
  exact getFeat_setFeatProps_ne st tgt.featId j _ hj

theorem lastInter_frame {G : Type} (p : String) (st : Store G)
    (src tgt : Element G) (g : G) (st' : Store G)
    (h : (LastValueStrategy G p).onIntersection st src tgt g = .ok st') :
    ∀ j, j ≠ tgt.featId → getFeat st' j = getFeat st j := by
  rw [LastValueStrategy] at h
  simp only at h
  rw [elemGet] at h
  cases hv : getProp (elemProps st src) p with
  | none => rw [hv] at h; simp at h
  | some v =>
    rw [hv] at h
    simp only at h
    injection h with h
    subst h
    intro j hj
    rw [elemSet_eq]
    exact getFeat_setFeatProps_ne st tgt.featId j _ hj

theorem listBegin_frame {G : Type} (p : String) (st : Store G)
    (tgt : Element G) (st' : Store G)
    (h : (ListValuesStrategy G p).onBegin st tgt = .ok st') :
    ∀ j, j ≠ tgt.featId → getFeat st' j = getFeat st j := by
  rw [listBegin_ok] at h
  injection h with h
  subst h
  intro j hj
  exact getFeat_setFeatProps_ne st tgt.featId j _ hj

theorem listInter_frame {G : Type} (p : String) (st : Store G)
    (src tgt : Element G) (g : G) (st' : Store G)
    (h : (ListValuesStrategy G p).onIntersection st src tgt g = .ok st') :
    ∀ j, j ≠ tgt.featId → getFeat st' j = getFeat st j := by
  rw [ListValuesStrategy] at h
  simp only at h
  rw [elemGet] at h
  cases ht : getProp (elemProps st tgt) p with
  | none => rw [ht] at h; simp at h
  | some w =>
    rw [ht] at h
    cases w with
    | num a => simp at h
    | str a => simp at h
    | vlist vs =>
      simp only at h
      rw [elemGet] at h
      cases hv : getProp (elemProps st src) p with
      | none => rw [hv] at h; simp at h
      | some v =>
        rw [hv] at h
        simp only at h
        injection h with h
        subst h
        intro j hj
        rw [elemSet_eq]
        exact getFeat_setFeatProps_ne st tgt.featId j _ hj

theorem sourcesLoop_frame {G : Type} (geo : GeoLib G) (strat : Strategy G)
    (tgt : Element G) (ti : Nat)
    (HFI : ∀ (st : Store G) (src : Element G) (g : G) (st' : Store G),
      strat.onIntersection st src tgt g = .ok st' →
      ∀ j, j ≠ tgt.featId → getFeat st' j = getFeat st j) :
    ∀ (srcs : List (Element G)) (st : Store G) (jx : Nat) (j : Nat),
      j ≠ tgt.featId →
      getFeat (sourcesLoop geo strat tgt ti st jx srcs).1 j =
        getFeat st j := by
  intro srcs
  induction srcs with
  | nil => intro st jx j _; rfl
  | cons src rest ih =>
    intro st jx j hj
    rw [sourcesLoop]
    cases hEmp : geo.isEmptyShape (geo.inter tgt.shape src.shape) with
    | true => simpa [hEmp] using ih st (jx + 1) j hj
    | false =>
      simp only [hEmp, Bool.false_eq_true, if_false]
      cases hh : strat.onIntersection st src tgt
          (geo.inter tgt.shape src.shape) with
      | error e => rfl
      | ok st2 =>
        simp only
        rw [ih st2 (jx + 1) j hj, HFI st src _ st2 hh j hj]

theorem processTarget_frame {G : Type} (geo : GeoLib G)
    (strat : Strategy G) (sources : List (Element G)) (prog : Bool)
    (n ti : Nat) (tgt : Element G)
    (HFB : ∀ (st : Store G) (st' : Store G),
      strat.onBegin st tgt = .ok st' →
      ∀ j, j ≠ tgt.featId → getFeat st' j = getFeat st j)
    (HFI : ∀ (st : Store G) (src : Element G) (g : G) (st' : Store G),
      strat.onIntersection st src tgt g = .ok st' →
      ∀ j, j ≠ tgt.featId → getFeat st' j = getFeat st j)
    (HFE : ∀ (st : Store G) (st' : Store G),
      strat.onEnd st tgt = .ok st' →
      ∀ j, j ≠ tgt.featId → getFeat st' j = getFeat st j) :
    ∀ (st : Store G) (j : Nat), j ≠ tgt.featId →
      getFeat (processTarget geo strat sources prog n ti st tgt).1 j =
        getFeat st j := by
  intro st j hj
  rw [processTarget]
  cases hb : strat.onBegin st tgt with
  | error e => rfl
  | ok st1 =>
    simp only
    cases hl : (sourcesLoop geo strat tgt ti st1 0 sources).2.2 with
    | some e =>
      simp only
      rw [sourcesLoop_frame geo strat tgt ti HFI sources st1 0 j hj,
        HFB st st1 hb j hj]
    | none =>
      simp only
      cases he : strat.onEnd (sourcesLoop geo strat tgt ti st1 0 sources).1
          tgt with
      | error e =>
        simp only
        rw [sourcesLoop_frame geo strat tgt ti HFI sources st1 0 j hj,
          HFB st st1 hb j hj]
      | ok st3 =>
        simp only
        rw [HFE _ st3 he j hj,
          sourcesLoop_frame geo strat tgt ti HFI sources st1 0 j hj,
          HFB st st1 hb j hj]

theorem targetsLoop_frame {G : Type} (geo : GeoLib G) (strat : Strategy G)
    (sources : List (Element G)) (prog : Bool) (n : Nat)
    (HFB : ∀ (st : Store G) (tgt : Element G) (st' : Store G),
      strat.onBegin st tgt = .ok st' →
      ∀ j, j ≠ tgt.featId → getFeat st' j = getFeat st j)
    (HFI : ∀ (st : Store G) (src tgt : Element G) (g : G) (st' : Store G),
      strat.onIntersection st src tgt g = .ok st' →
      ∀ j, j ≠ tgt.featId → getFeat st' j = getFeat st j)
    (HFE : ∀ (st : Store G) (tgt : Element G) (st' : Store G),
      strat.onEnd st tgt = .ok st' →
      ∀ j, j ≠ tgt.featId → getFeat st' j = getFeat st j) :
    ∀ (tgts : List (Element G)) (st : Store G) (ti : Nat) (j : Nat),
      (∀ t ∈ tgts, j ≠ t.featId) →
      getFeat (targetsLoop geo strat sources prog n st ti tgts).1 j =
        getFeat st j := by
  intro tgts
  induction tgts with
  | nil => intro st ti j _; rfl
  | cons tgt rest ih =>
    intro st ti j hj
    rw [targetsLoop]
    have hstep := processTarget_frame geo strat sources prog n ti tgt
      (fun st2 st2' h => HFB st2 tgt st2' h)
      (fun st2 src g st2' h => HFI st2 src tgt g st2' h)
      (fun st2 st2' h => HFE st2 tgt st2' h)
      st j (hj tgt (by simp))
    cases hp : (processTarget geo strat sources prog n ti st tgt).2.2 with
    | some e => simp only; exact hstep
    | none =>
      simp only
      rw [ih (processTarget geo strat sources prog n ti st tgt).1 (ti + 1)
        j (fun t ht => hj t (List.mem_cons_of_mem tgt ht)), hstep]

/-- C4 counterexample: in the aliased run (feature 1 occurs in both
collections) with `LastValueStrategy`, the run completes and source
feature 1 is mutated (its `p` changes from `20` to `10`): the claim as
stated is false. -/
theorem sources_unchanged_cex :
    (assign natGeo cexStore [0, 1] [1]
      (LastValueStrategy (List Nat) "p") false).error = none ∧
    (1 : Nat) ∈ [0, 1] ∧
    getFeat (assign natGeo cexStore [0, 1] [1]
      (LastValueStrategy (List Nat) "p") false).store 1 ≠
      getFeat cexStore 1 := by
  refine ⟨by decide, by decide, by decide⟩

/-- C4 (amended): when the source and target collections share no
feature, a run of `assign` with either provided strategy — even one that
aborts — leaves every source feature (geometry and property mapping)
unchanged. -/
theorem sources_unchanged {G : Type} (geo : GeoLib G) (st0 : Store G)
    (srcIds tgtIds : List Nat) (p : String) (prog : Bool)
    (strat : Strategy G)
    (hstrat : strat = LastValueStrategy G p ∨
      strat = ListValuesStrategy G p)
    (hdisj : ∀ i ∈ srcIds, i ∉ tgtIds) :
    ∀ i ∈ srcIds,
      getFeat (assign geo st0 srcIds tgtIds strat prog).store i =
        getFeat st0 i := by
  intro i hi
  rw [assign]
  cases hs : toElements st0 srcIds with
  | none => rfl
  | some sources =>
    simp only
    cases ht : toElements st0 tgtIds with
    | none => rfl
    | some targets =>
      simp only
      have hne : ∀ t ∈ targets, i ≠ t.featId := by
        intro t htm hc
        exact hdisj i hi
          (hc ▸ toElements_mem_featId tgtIds st0 targets ht t htm)
      rcases hstrat with hstrat | hstrat
      · subst hstrat
        exact targetsLoop_frame geo (LastValueStrategy G p) sources prog
          targets.length
          (fun st2 tgt st2' h => lastBegin_frame p st2 tgt st2' h)
          (fun st2 src tgt g st2' h => lastInter_frame p st2 src tgt g
            st2' h)
          (fun st2 tgt st2' h => by
            rw [show (LastValueStrategy G p).onEnd st2 tgt = .ok st2
              from rfl] at h
            injection h with h
            subst h
            exact fun j _ => rfl)
          targets st0 0 i hne
      · subst hstrat
        exact targetsLoop_frame geo (ListValuesStrategy G p) sources prog
          targets.length
          (fun st2 tgt st2' h => listBegin_frame p st2 tgt st2' h)
          (fun st2 src tgt g st2' h => listInter_frame p st2 src tgt g
            st2' h)
          (fun st2 tgt st2' h => by
            rw [show (ListValuesStrategy G p).onEnd st2 tgt = .ok st2
              from rfl] at h
            injection h with h
            subst h
            exact fun j _ => rfl)
          targets st0 0 i hne

/-- C4 witness: the amended frame property at a concrete disjoint run. -/
theorem sources_unchanged_witness :
    (∀ i ∈ [0, 1], i ∉ [2, 3]) ∧
    ∀ i ∈ [0, 1],
      getFeat (assign natGeo okStore [0, 1] [2, 3]
        (LastValueStrategy (List Nat) "p") false).store i =
        getFeat okStore i :=
  ⟨by decide,
   sources_unchanged natGeo okStore [0, 1] [2, 3] "p" false
     (LastValueStrategy (List Nat) "p") (Or.inl rfl) (by decide)⟩

end GeoAssigner

namespace GeoAssigner

theorem toElements_map_featId {G : Type} :
    ∀ (ids : List Nat) (st : Store G) (es : List (Element G)),
      toElements st ids = some es → es.map Element.featId = ids := by
  intro ids
  induction ids with
  | nil =>
    intro st es h
    simp [toElements] at h
    subst h
    rfl
  | cons i rest ih =>
    intro st es h
    rw [toElements] at h
    cases hg : asShape (getFeat st i).geometry with
    | none => rw [hg] at h; simp at h
    | some g =>
      rw [hg] at h
      cases hr : toElements st rest with
      | none => rw [hr] at h; simp at h
      | some es2 =>
        rw [hr] at h
        simp at h
        subst h
        simp [ih st es2 hr]

/-- C5 counterexample: in the aliased run on `cexStore` both runs of
`assign` with `LastValueStrategy` complete, yet the second run changes
the store again (target feature 2 goes from `p = 20` to `p = 10`): the
claim as stated is false. -/
theorem assign_idempotent_cex :
    (assign natGeo cexStore [0, 1] [2, 1]
      (LastValueStrategy (List Nat) "p") false).error = none ∧
    (assign natGeo
      (assign natGeo cexStore [0, 1] [2, 1]
        (LastValueStrategy (List Nat) "p") false).store
      [0, 1] [2, 1] (LastValueStrategy (List Nat) "p") false).error =
      none ∧
    (assign natGeo
      (assign natGeo cexStore [0, 1] [2, 1]
        (LastValueStrategy (List Nat) "p") false).store
      [0, 1] [2, 1] (LastValueStrategy (List Nat) "p") false).store ≠
      (assign natGeo cexStore [0, 1] [2, 1]
        (LastValueStrategy (List Nat) "p") false).store := by
  refine ⟨by decide, by decide, by decide⟩

/-- C5 (amended): when the source and target collections share no
feature and every source intersecting some target carries the bound
property, both provided strategies are idempotent: the first run
completes, and a second run on the mutated store completes and leaves
the store exactly as the first run left it. -/
theorem assign_idempotent {G : Type} (geo : GeoLib G) (st0 : Store G)
    (srcIds tgtIds : List Nat) (p : String) (prog : Bool)
    (strat : Strategy G)
    (hstrat : strat = LastValueStrategy G p ∨
      strat = ListValuesStrategy G p)
    (sources targets : List (Element G))
    (hsrc : toElements st0 srcIds = some sources)
    (htgt : toElements st0 tgtIds = some targets)
    (hdisj : ∀ i ∈ srcIds, i ∉ tgtIds)
    (hpres : ∀ t ∈ targets, ∀ s ∈ intersecting geo sources t.shape,
      (getProp (elemProps st0 s) p).isSome = true) :
    (assign geo st0 srcIds tgtIds strat prog).error = none ∧
    (assign geo (assign geo st0 srcIds tgtIds strat prog).store
      srcIds tgtIds strat prog).error = none ∧
    (assign geo (assign geo st0 srcIds tgtIds strat prog).store
      srcIds tgtIds strat prog).store =
      (assign geo st0 srcIds tgtIds strat prog).store := by
  rcases hstrat with hstrat | hstrat
  · subst hstrat
    obtain ⟨st1, evs1, heq1, hlen1, hframe1, hout1⟩ :=
      assign_last_ok geo st0 srcIds tgtIds p prog sources targets hsrc
        htgt hdisj hpres
    have hgeom1 : ∀ j, (getFeat st1 j).geometry =
        (getFeat st0 j).geometry := by
      intro j
      by_cases hj : j ∈ tgtIds
      · rw [← toElements_map_featId tgtIds st0 targets htgt] at hj
        simp only [List.mem_map] at hj
        obtain ⟨t, ht, hfe⟩ := hj
        rw [← hfe, hout1 t ht |>.choose_spec.2]
      · rw [hframe1 j hj]
    have hsrc1 : toElements st1 srcIds = some sources := by
      rw [toElements_congr srcIds st1 st0 (fun i _ => hgeom1 i)]
      exact hsrc
    have htgt1 : toElements st1 tgtIds = some targets := by
      rw [toElements_congr tgtIds st1 st0 (fun i _ => hgeom1 i)]
      exact htgt
    have hagree1 : ∀ s ∈ sources, elemProps st1 s = elemProps st0 s := by
      intro s hs
      simp only [elemProps]
      rw [hframe1 s.featId (hdisj s.featId
        (toElements_mem_featId srcIds st0 sources hsrc s hs))]
    have hpres1 : ∀ t ∈ targets, ∀ s ∈ intersecting geo sources t.shape,
        (getProp (elemProps st1 s) p).isSome = true := by
      intro t ht s hs
      rw [hagree1 s (intersecting_subset geo sources t.shape s hs)]
      exact hpres t ht s hs
    obtain ⟨st2, evs2, heq2, hlen2, hframe2, hout2⟩ :=
      assign_last_ok geo st1 srcIds tgtIds p prog sources targets hsrc1
        htgt1 hdisj hpres1
    rw [heq1]
    simp only
    rw [heq2]
    refine ⟨trivial, rfl, ?_⟩
    apply store_ext st2 st1 (by rw [hlen2])
    intro j
    by_cases hj : j ∈ tgtIds
    · rw [← toElements_map_featId tgtIds st0 targets htgt] at hj
      simp only [List.mem_map] at hj
      obtain ⟨t, ht, hfe⟩ := hj
      obtain ⟨vs1, hvs1, hfeat1⟩ := hout1 t ht
      obtain ⟨vs2, hvs2, hfeat2⟩ := hout2 t ht
      have hveq : vs2 = vs1 := by
        rw [srcVals_congr p (intersecting geo sources t.shape) st1 st0
          (fun s hs => hagree1 s
            (intersecting_subset geo sources t.shape s hs))] at hvs2
        rw [hvs1] at hvs2
        injection hvs2 with h2
        exact h2.symm
      subst hveq
      have hp1 : elemProps st1 t = lastFold p vs2 (elemProps st0 t) := by
        simp only [elemProps]
        rw [hfeat1]
        exact rfl
      have hg1 : (getFeat st1 t.featId).geometry =
          (getFeat st0 t.featId).geometry := by
        rw [hfeat1]
      rw [← hfe, hfeat2, hp1, lastFold_lastFold, hg1, hfeat1]
    · rw [hframe2 j hj, hframe1 j hj]
  · subst hstrat
    obtain ⟨st1, evs1, heq1, hlen1, hframe1, hout1⟩ :=
      assign_list_ok geo st0 srcIds tgtIds p prog sources targets hsrc
        htgt hdisj hpres
    have hgeom1 : ∀ j, (getFeat st1 j).geometry =
        (getFeat st0 j).geometry := by
      intro j
      by_cases hj : j ∈ tgtIds
      · rw [← toElements_map_featId tgtIds st0 targets htgt] at hj
        simp only [List.mem_map] at hj
        obtain ⟨t, ht, hfe⟩ := hj
        rw [← hfe, hout1 t ht |>.choose_spec.2]
      · rw [hframe1 j hj]
    have hsrc1 : toElements st1 srcIds = some sources := by
      rw [toElements_congr srcIds st1 st0 (fun i _ => hgeom1 i)]
      exact hsrc
    have htgt1 : toElements st1 tgtIds = some targets := by
      rw [toElements_congr tgtIds st1 st0 (fun i _ => hgeom1 i)]
      exact htgt
    have hagree1 : ∀ s ∈ sources, elemProps st1 s = elemProps st0 s := by
      intro s hs
      simp only [elemProps]
      rw [hframe1 s.featId (hdisj s.featId
        (toElements_mem_featId srcIds st0 sources hsrc s hs))]
    have hpres1 : ∀ t ∈ targets, ∀ s ∈ intersecting geo sources t.shape,
        (getProp (elemProps st1 s) p).isSome = true := by
      intro t ht s hs
      rw [hagree1 s (intersecting_subset geo sources t.shape s hs)]
      exact hpres t ht s hs
    obtain ⟨st2, evs2, heq2, hlen2, hframe2, hout2⟩ :=
      assign_list_ok geo st1 srcIds tgtIds p prog sources targets hsrc1
        htgt1 hdisj hpres1
    rw [heq1]
    simp only
    rw [heq2]
    refine ⟨trivial, rfl, ?_⟩
    apply store_ext st2 st1 (by rw [hlen2])
    intro j
    by_cases hj : j ∈ tgtIds
    · rw [← toElements_map_featId tgtIds st0 targets htgt] at hj
      simp only [List.mem_map] at hj
      obtain ⟨t, ht, hfe⟩ := hj
      obtain ⟨vs1, hvs1, hfeat1⟩ := hout1 t ht
      obtain ⟨vs2, hvs2, hfeat2⟩ := hout2 t ht
      have hveq : vs2 = vs1 := by
        rw [srcVals_congr p (intersecting geo sources t.shape) st1 st0
          (fun s hs => hagree1 s
            (intersecting_subset geo sources t.shape s hs))] at hvs2
        rw [hvs1] at hvs2
        injection hvs2 with h2
        exact h2.symm
      subst hveq
      have hp1 : elemProps st1 t = listFold p vs2 (elemProps st0 t) := by
        simp only [elemProps]
        rw [hfeat1]
        exact rfl
      have hg1 : (getFeat st1 t.featId).geometry =
          (getFeat st0 t.featId).geometry := by
        rw [hfeat1]
      rw [← hfe, hfeat2, hp1, listFold_listFold, hg1, hfeat1]
    · rw [hframe2 j hj, hframe1 j hj]

/-- C5 witness: idempotence at a concrete disjoint run with
`ListValuesStrategy` (the spec's harder case: the list must not grow). -/
theorem assign_idempotent_witness :
    (∀ i ∈ [0, 1], i ∉ [2, 3]) ∧
    (assign natGeo okStore [0, 1] [2, 3]
      (ListValuesStrategy (List Nat) "p") false).error = none ∧
    (assign natGeo (assign natGeo okStore [0, 1] [2, 3]
        (ListValuesStrategy (List Nat) "p") false).store
      [0, 1] [2, 3] (ListValuesStrategy (List Nat) "p") false).error =
      none ∧
    (assign natGeo (assign natGeo okStore [0, 1] [2, 3]
        (ListValuesStrategy (List Nat) "p") false).store
      [0, 1] [2, 3] (ListValuesStrategy (List Nat) "p") false).store =
      (assign natGeo okStore [0, 1] [2, 3]
        (ListValuesStrategy (List Nat) "p") false).store :=
  ⟨by decide,
   assign_idempotent natGeo okStore [0, 1] [2, 3] "p" false
     (ListValuesStrategy (List Nat) "p") (Or.inr rfl)
     [Element.mk 0 [1], Element.mk 1 [1, 2]]
     [Element.mk 2 [2], Element.mk 3 [5]]
     (by decide) (by decide) (by decide) (by decide)⟩

end GeoAssigner

namespace GeoAssigner

theorem sourcesLoop_last_err {G : Type} (geo : GeoLib G) (p : String)
    (store0 : Store G) (tgt : Element G) (ti : Nat) :
    ∀ (srcs : List (Element G)) (st : Store G) (j : Nat),
      (∀ s ∈ srcs, elemProps st s = elemProps store0 s) →
      (∀ s ∈ srcs, s.featId ≠ tgt.featId) →
      tgt.featId < st.length →
      (∃ s ∈ intersecting geo srcs tgt.shape,
        getProp (elemProps store0 s) p = none) →
      (sourcesLoop geo (LastValueStrategy G p) tgt ti st j srcs).2.2 =
        some (.propertyNotFound p) := by
  intro srcs
  induction srcs with
  | nil =>
    intro st j _ _ _ hex
    obtain ⟨s, hs, _⟩ := hex
    simp [intersecting] at hs
  | cons src rest ih =>
    intro st j hagree hne hlt hex
    rw [sourcesLoop]
    cases hEmp : geo.isEmptyShape (geo.inter tgt.shape src.shape) with
    | true =>
      rw [intersecting_cons_empty geo src rest tgt.shape hEmp] at hex
      simp only [hEmp, if_true]
      exact ih st (j + 1)
        (fun s hs => hagree s (List.mem_cons_of_mem src hs))
        (fun s hs => hne s (List.mem_cons_of_mem src hs)) hlt hex
    | false =>
      rw [intersecting_cons_inter geo src rest tgt.shape hEmp] at hex
      simp only [hEmp, Bool.false_eq_true, if_false]
      cases hv : getProp (elemProps store0 src) p with
      | none =>
        rw [show (LastValueStrategy G p).onIntersection st src tgt
            (geo.inter tgt.shape src.shape) =
            .error (.propertyNotFound p) from by
          rw [LastValueStrategy]
          simp only
          rw [elemGet, hagree src (by simp), hv]]
      | some v =>
        rw [show (LastValueStrategy G p).onIntersection st src tgt
            (geo.inter tgt.shape src.shape) =
            .ok (elemSet st tgt p v) from by
          rw [LastValueStrategy]
          simp only
          rw [elemGet, hagree src (by simp), hv]]
        simp only
        obtain ⟨s, hs, hsn⟩ := hex
        have hsr : s ∈ intersecting geo rest tgt.shape := by
          rcases List.mem_cons.mp hs with h | h
          · subst h; rw [hv] at hsn; simp at hsn
          · exact h
        exact ih (elemSet st tgt p v) (j + 1)
          (fun s2 hs2 => by
            rw [elemSet_eq, elemProps_setFeatProps_ne st s2 tgt.featId _
              (hne s2 (List.mem_cons_of_mem src hs2))]
            exact hagree s2 (List.mem_cons_of_mem src hs2))
          (fun s2 hs2 => hne s2 (List.mem_cons_of_mem src hs2))
          (by rw [elemSet_eq, setFeatProps_length]; exact hlt)
          ⟨s, hsr, hsn⟩

theorem sourcesLoop_list_err {G : Type} (geo : GeoLib G) (p : String)
    (store0 : Store G) (tgt : Element G) (ti : Nat) :
    ∀ (srcs : List (Element G)) (st : Store G) (j : Nat)
      (acc : List Value),
      (∀ s ∈ srcs, elemProps st s = elemProps store0 s) →
      (∀ s ∈ srcs, s.featId ≠ tgt.featId) →
      tgt.featId < st.length →
      getProp (elemProps st tgt) p = some (.vlist acc) →
      (∃ s ∈ intersecting geo srcs tgt.shape,
        getProp (elemProps store0 s) p = none) →
      (sourcesLoop geo (ListValuesStrategy G p) tgt ti st j srcs).2.2 =
        some (.propertyNotFound p) := by
  intro srcs
  induction srcs with
  | nil =>
    intro st j acc _ _ _ _ hex
    obtain ⟨s, hs, _⟩ := hex
    simp [intersecting] at hs
  | cons src rest ih =>
    intro st j acc hagree hne hlt hacc hex
    rw [sourcesLoop]
    cases hEmp : geo.isEmptyShape (geo.inter tgt.shape src.shape) with
    | true =>
      rw [intersecting_cons_empty geo src rest tgt.shape hEmp] at hex
      simp only [hEmp, if_true]
      exact ih st (j + 1) acc
        (fun s hs => hagree s (List.mem_cons_of_mem src hs))
        (fun s hs => hne s (List.mem_cons_of_mem src hs)) hlt hacc hex
    | false =>
      rw [intersecting_cons_inter geo src rest tgt.shape hEmp] at hex
      simp only [hEmp, Bool.false_eq_true, if_false]
      cases hv : getProp (elemProps store0 src) p with
      | none =>
        rw [show (ListValuesStrategy G p).onIntersection st src tgt
            (geo.inter tgt.shape src.shape) =
            .error (.propertyNotFound p) from by
          rw [ListValuesStrategy]
          simp only
          rw [elemGet, hacc]
          simp only
          rw [elemGet, hagree src (by simp), hv]]
      | some v =>
        rw [show (ListValuesStrategy G p).onIntersection st src tgt
            (geo.inter tgt.shape src.shape) =
            .ok (elemSet st tgt p (.vlist (acc ++ [v]))) from by
          rw [ListValuesStrategy]
          simp only
          rw [elemGet, hacc]
          simp only
          rw [elemGet, hagree src (by simp), hv]]
        simp only
        obtain ⟨s, hs, hsn⟩ := hex
        have hsr : s ∈ intersecting geo rest tgt.shape := by
          rcases List.mem_cons.mp hs with h | h
          · subst h; rw [hv] at hsn; simp at hsn
          · exact h
        exact ih (elemSet st tgt p (.vlist (acc ++ [v]))) (j + 1)
          (acc ++ [v])
          (fun s2 hs2 => by
            rw [elemSet_eq, elemProps_setFeatProps_ne st s2 tgt.featId _
              (hne s2 (List.mem_cons_of_mem src hs2))]
            exact hagree s2 (List.mem_cons_of_mem src hs2))
          (fun s2 hs2 => hne s2 (List.mem_cons_of_mem src hs2))
          (by rw [elemSet_eq, setFeatProps_length]; exact hlt)
          (by
            rw [elemSet_eq, elemProps_setFeatProps_self st tgt _ hlt]
            exact getProp_setProp_self _ _ _)
          ⟨s, hsr, hsn⟩

theorem processTarget_last_err {G : Type} (geo : GeoLib G) (p : String)
    (store0 : Store G) (sources : List (Element G)) (prog : Bool)
    (n ti : Nat) (st : Store G) (tgt : Element G)
    (hagree : ∀ s ∈ sources, elemProps st s = elemProps store0 s)
    (hne : ∀ s ∈ sources, s.featId ≠ tgt.featId)
    (hlt : tgt.featId < st.length)
    (hex : ∃ s ∈ intersecting geo sources tgt.shape,
      getProp (elemProps store0 s) p = none) :
    (processTarget geo (LastValueStrategy G p) sources prog n ti st
      tgt).2.2 = some (.propertyNotFound p) := by
  rw [processTarget, lastBegin_ok]
  simp only
  have herr := sourcesLoop_last_err geo p store0 tgt ti sources
    (setFeatProps st tgt.featId (delProp (elemProps st tgt) p)) 0
    (fun s hs => by
      rw [elemProps_setFeatProps_ne st s tgt.featId _ (hne s hs)]
      exact hagree s hs)
    hne (by rw [setFeatProps_length]; exact hlt) hex
  rw [herr]

theorem processTarget_list_err {G : Type} (geo : GeoLib G) (p : String)
    (store0 : Store G) (sources : List (Element G)) (prog : Bool)
    (n ti : Nat) (st : Store G) (tgt : Element G)
    (hagree : ∀ s ∈ sources, elemProps st s = elemProps store0 s)
    (hne : ∀ s ∈ sources, s.featId ≠ tgt.featId)
    (hlt : tgt.featId < st.length)
    (hex : ∃ s ∈ intersecting geo sources tgt.shape,
      getProp (elemProps store0 s) p = none) :
    (processTarget geo (ListValuesStrategy G p) sources prog n ti st
      tgt).2.2 = some (.propertyNotFound p) := by
  rw [processTarget, listBegin_ok]
  simp only
  have herr := sourcesLoop_list_err geo p store0 tgt ti sources
    (setFeatProps st tgt.featId (setProp (elemProps st tgt) p (.vlist [])))
    0 []
    (fun s hs => by
      rw [elemProps_setFeatProps_ne st s tgt.featId _ (hne s hs)]
      exact hagree s hs)
    hne (by rw [setFeatProps_length]; exact hlt)
    (by
      rw [elemProps_setFeatProps_self st tgt _ hlt]
      exact getProp_setProp_self _ _ _)
    hex
  rw [herr]

end GeoAssigner

namespace GeoAssigner

theorem targetsLoop_err {G : Type} (geo : GeoLib G) (strat : Strategy G)
    (sources : List (Element G)) (prog : Bool) (n : Nat)
    (store0 : Store G) (p : String) (O : Element G → Props → Props) :
    ∀ (tgts : List (Element G)) (st : Store G) (ti : Nat),
      (∀ (st2 : Store G) (ti2 : Nat) (tgt : Element G), tgt ∈ tgts →
        (∀ s ∈ sources, elemProps st2 s = elemProps store0 s) →
        tgt.featId < st2.length →
        (∀ s ∈ intersecting geo sources tgt.shape,
          (getProp (elemProps store0 s) p).isSome = true) →
        ∃ evs, processTarget geo strat sources prog n ti2 st2 tgt =
          (setFeatProps st2 tgt.featId (O tgt (elemProps st2 tgt)),
           evs, none)) →
      (∀ (st2 : Store G) (ti2 : Nat) (tgt : Element G), tgt ∈ tgts →
        (∀ s ∈ sources, elemProps st2 s = elemProps store0 s) →
        tgt.featId < st2.length →
        (∃ s ∈ intersecting geo sources tgt.shape,
          getProp (elemProps store0 s) p = none) →
        (processTarget geo strat sources prog n ti2 st2 tgt).2.2 =
          some (.propertyNotFound p)) →
      (∀ s ∈ sources, elemProps st s = elemProps store0 s) →
      (∀ s ∈ sources, ∀ t ∈ tgts, s.featId ≠ t.featId) →
      (∀ t ∈ tgts, t.featId < st.length) →
      (∃ t ∈ tgts, ∃ s ∈ intersecting geo sources t.shape,
        getProp (elemProps store0 s) p = none) →
      (targetsLoop geo strat sources prog n st ti tgts).2.2 =
        some (.propertyNotFound p) := by
  intro tgts
  induction tgts with
  | nil =>
    intro st ti _ _ _ _ _ hex
    obtain ⟨t, ht, _⟩ := hex
    simp at ht
  | cons tgt rest ih =>
    intro st ti HPTOK HPTERR hagree hne hlt hex
    rw [targetsLoop]
    by_cases hoff : ∃ s ∈ intersecting geo sources tgt.shape,
        getProp (elemProps store0 s) p = none
    · rw [HPTERR st ti tgt (by simp) hagree (hlt tgt (by simp)) hoff]
    · have hall : ∀ s ∈ intersecting geo sources tgt.shape,
          (getProp (elemProps store0 s) p).isSome = true := by
        intro s hs
        cases hv : getProp (elemProps store0 s) p with
        | none => exact absurd ⟨s, hs, hv⟩ hoff
        | some v => rfl
      obtain ⟨evs, heq⟩ := HPTOK st ti tgt (by simp) hagree
        (hlt tgt (by simp)) hall
      rw [heq]
      simp only
      have hex2 : ∃ t2 ∈ rest, ∃ s ∈ intersecting geo sources t2.shape,
          getProp (elemProps store0 s) p = none := by
        obtain ⟨t2, ht2, hs2⟩ := hex
        rcases List.mem_cons.mp ht2 with h | h
        · subst h; exact absurd hs2 hoff
        · exact ⟨t2, h, hs2⟩
      exact ih (setFeatProps st tgt.featId (O tgt (elemProps st tgt)))
        (ti + 1)
        (fun st2 ti2 t ht => HPTOK st2 ti2 t (List.mem_cons_of_mem tgt ht))
        (fun st2 ti2 t ht => HPTERR st2 ti2 t (List.mem_cons_of_mem tgt ht))
        (fun s hs => by
          rw [elemProps_setFeatProps_ne st s tgt.featId _
            (hne s hs tgt (by simp))]
          exact hagree s hs)
        (fun s hs t ht => hne s hs t (List.mem_cons_of_mem tgt ht))
        (fun t ht => by
          rw [setFeatProps_length]
          exact hlt t (List.mem_cons_of_mem tgt ht))
        hex2

/-- C6 counterexample: with the aliased input `cexStore6` (feature 1,
which lacks `p`, is both a source and a target), a source intersecting a
target lacks the bound property, yet the `LastValueStrategy` run
completes without any error — the property was written onto the shared
feature as a target before being read off it as a source: the claim as
stated is false. -/
theorem missing_prop_aborts_cex :
    toElements cexStore6 [0, 1] =
      some [Element.mk 0 [1], Element.mk 1 [1]] ∧
    toElements cexStore6 [1] = some [Element.mk 1 [1]] ∧
    Element.mk 1 [1] ∈ intersecting natGeo
      [Element.mk 0 [1], Element.mk 1 [1]] (Element.mk 1 [1]).shape ∧
    getProp (elemProps cexStore6 (Element.mk 1 [1])) "p" = none ∧
    (assign natGeo cexStore6 [0, 1] [1]
      (LastValueStrategy (List Nat) "p") false).error = none := by
  refine ⟨by decide, by decide, by decide, by decide, by decide⟩

/-- C6 (amended): when the source and target collections share no
feature, a run with either provided strategy in which some source
lacking the bound property intersects some target aborts with
`PropertyNotFound` for that property — the error is not caught by the
engine. -/
theorem missing_prop_aborts {G : Type} (geo : GeoLib G) (st0 : Store G)
    (srcIds tgtIds : List Nat) (p : String) (prog : Bool)
    (strat : Strategy G)
    (hstrat : strat = LastValueStrategy G p ∨
      strat = ListValuesStrategy G p)
    (sources targets : List (Element G))
    (hsrc : toElements st0 srcIds = some sources)
    (htgt : toElements st0 tgtIds = some targets)
    (hdisj : ∀ i ∈ srcIds, i ∉ tgtIds)
    (hmiss : ∃ t ∈ targets, ∃ s ∈ intersecting geo sources t.shape,
      getProp (elemProps st0 s) p = none) :
    (assign geo st0 srcIds tgtIds strat prog).error =
      some (.propertyNotFound p) := by
  have hne : ∀ s ∈ sources, ∀ t ∈ targets, s.featId ≠ t.featId := by
    intro s hs t ht hc
    exact hdisj s.featId
      (toElements_mem_featId srcIds st0 sources hsrc s hs)
      (hc ▸ toElements_mem_featId tgtIds st0 targets htgt t ht)
  rw [assign, hsrc, htgt]
  simp only
  rcases hstrat with hstrat | hstrat
  · subst hstrat
    exact targetsLoop_err geo (LastValueStrategy G p) sources prog
      targets.length st0 p
      (fun t q =>
        lastFold p ((srcVals st0 p (intersecting geo sources t.shape)).getD
          []) q)
      targets st0 0
      (fun st2 ti2 tgt htm hag hlt2 hall => by
        obtain ⟨vs, hvs⟩ := srcVals_isSome_of_present p
          (intersecting geo sources tgt.shape) st0 hall
        obtain ⟨evs2, heq2⟩ := processTarget_last geo p st0 sources prog
          targets.length ti2 st2 tgt vs hag
          (fun s hs => hne s hs tgt htm) hlt2 hvs
        refine ⟨evs2, ?_⟩
        rw [heq2]
        simp only [hvs, Option.getD_some])
      (fun st2 ti2 tgt htm hag hlt2 hexx =>
        processTarget_last_err geo p st0 sources prog targets.length ti2
          st2 tgt hag (fun s hs => hne s hs tgt htm) hlt2 hexx)
      (fun s _ => rfl) hne
      (toElements_featId_lt tgtIds st0 targets htgt) hmiss
  · subst hstrat
    exact targetsLoop_err geo (ListValuesStrategy G p) sources prog
      targets.length st0 p
      (fun t q =>
        listFold p ((srcVals st0 p (intersecting geo sources t.shape)).getD
          []) q)
      targets st0 0
      (fun st2 ti2 tgt htm hag hlt2 hall => by
        obtain ⟨vs, hvs⟩ := srcVals_isSome_of_present p
          (intersecting geo sources tgt.shape) st0 hall
        obtain ⟨evs2, heq2⟩ := processTarget_list geo p st0 sources prog
          targets.length ti2 st2 tgt vs hag
          (fun s hs => hne s hs tgt htm) hlt2 hvs
        refine ⟨evs2, ?_⟩
        rw [heq2]
        simp only [hvs, Option.getD_some])
      (fun st2 ti2 tgt htm hag hlt2 hexx =>
        processTarget_list_err geo p st0 sources prog targets.length ti2
          st2 tgt hag (fun s hs => hne s hs tgt htm) hlt2 hexx)
      (fun s _ => rfl) hne
      (toElements_featId_lt tgtIds st0 targets htgt) hmiss

/-- C6 witness: on `missStore`, source 1 lacks `p` and intersects
target 2; the disjoint run aborts with `PropertyNotFound "p"`. -/
theorem missing_prop_aborts_witness :
    (∀ i ∈ [0, 1], i ∉ [2]) ∧
    (∃ t ∈ [Element.mk 2 [1]],
      ∃ s ∈ intersecting natGeo [Element.mk 0 [1], Element.mk 1 [1]]
        t.shape, getProp (elemProps missStore s) "p" = none) ∧
    (assign natGeo missStore [0, 1] [2]
      (LastValueStrategy (List Nat) "p") false).error =
      some (.propertyNotFound "p") :=
  ⟨by decide, ⟨Element.mk 2 [1], by decide,
    ⟨Element.mk 1 [1], by decide, by decide⟩⟩,
   missing_prop_aborts natGeo missStore [0, 1] [2] "p" false
     (LastValueStrategy (List Nat) "p") (Or.inl rfl)
     [Element.mk 0 [1], Element.mk 1 [1]] [Element.mk 2 [1]]
     (by decide) (by decide) (by decide)
     ⟨Element.mk 2 [1], by decide,
      ⟨Element.mk 1 [1], by decide, by decide⟩⟩⟩

end GeoAssigner

namespace GeoAssigner

theorem sourcesLoop_events {G : Type} (geo : GeoLib G) (strat : Strategy G)
    (tgt : Element G) (ti : Nat) :
    ∀ (srcs : List (Element G)) (st : Store G) (j : Nat),
      ∀ e ∈ (sourcesLoop geo strat tgt ti st j srcs).2.1,
        eventIdx e = ti ∧ isProgressEv e = false := by
  intro srcs
  induction srcs with
  | nil => intro st j e he; simp [sourcesLoop] at he
  | cons src rest ih =>
    intro st j e he
    rw [sourcesLoop] at he
    cases hEmp : geo.isEmptyShape (geo.inter tgt.shape src.shape) with
    | true =>
      simp only [hEmp, if_true] at he
      rcases List.mem_cons.mp he with h | h
      · subst h; exact ⟨rfl, rfl⟩
      · exact ih st (j + 1) e h
    | false =>
      simp only [hEmp, Bool.false_eq_true, if_false] at he
      cases hh : strat.onIntersection st src tgt
          (geo.inter tgt.shape src.shape) with
      | error err =>
        rw [hh] at he
        simp only at he
        rcases List.mem_cons.mp he with h | h
        · subst h; exact ⟨rfl, rfl⟩
        · rcases List.mem_cons.mp h with h2 | h2
          · subst h2; exact ⟨rfl, rfl⟩
          · simp at h2
      | ok st2 =>
        rw [hh] at he
        simp only at he
        rcases List.mem_cons.mp he with h | h
        · subst h; exact ⟨rfl, rfl⟩
        · rcases List.mem_cons.mp h with h2 | h2
          · subst h2; exact ⟨rfl, rfl⟩
          · exact ih st2 (j + 1) e h2

theorem processTarget_events {G : Type} (geo : GeoLib G)
    (strat : Strategy G) (sources : List (Element G)) (n ti : Nat)
    (st : Store G) (tgt : Element G)
    (hsucc : (processTarget geo strat sources true n ti st tgt).2.2 =
      none) :
    ∃ blk, (processTarget geo strat sources true n ti st tgt).2.1 =
      Event.progress ti n :: blk ∧
      ∀ e ∈ blk, eventIdx e = ti ∧ isProgressEv e = false := by
  cases hb : strat.onBegin st tgt with
  | error e =>
    rw [processTarget, hb] at hsucc
    simp at hsucc
  | ok st1 =>
    cases hl : (sourcesLoop geo strat tgt ti st1 0 sources).2.2 with
    | some e =>
      rw [processTarget, hb] at hsucc
      simp only at hsucc
      rw [hl] at hsucc
      simp at hsucc
    | none =>
      cases he : strat.onEnd (sourcesLoop geo strat tgt ti st1 0
          sources).1 tgt with
      | error err =>
        rw [processTarget, hb] at hsucc
        simp only at hsucc
        rw [hl] at hsucc
        simp only at hsucc
        rw [he] at hsucc
        simp at hsucc
      | ok st3 =>
        rw [processTarget, hb]
        simp only
        rw [hl]
        simp only
        rw [he]
        simp only
        refine ⟨Event.beginHook ti ::
          (sourcesLoop geo strat tgt ti st1 0 sources).2.1 ++
          [Event.endHook ti], rfl, ?_⟩
        intro e hee
        rcases List.mem_cons.mp hee with h | h
        · subst h; exact ⟨rfl, rfl⟩
        · rcases List.mem_append.mp h with h2 | h2
          · exact sourcesLoop_events geo strat tgt ti sources st1 0 e h2
          · simp at h2
            subst h2
            exact ⟨rfl, rfl⟩

theorem flatMap_congr_on {A B : Type _} :
    ∀ (l : List A) (f g : A → List B), (∀ x ∈ l, f x = g x) →
      l.flatMap f = l.flatMap g := by
  intro l
  induction l with
  | nil => intro f g _; rfl
  | cons x xs ih =>
    intro f g h
    rw [List.flatMap_cons, List.flatMap_cons, h x (by simp),
      ih f g (fun y hy => h y (List.mem_cons_of_mem x hy))]

theorem targetsLoop_trace {G : Type} (geo : GeoLib G) (strat : Strategy G)
    (sources : List (Element G)) (n : Nat) :
    ∀ (tgts : List (Element G)) (st : Store G) (ti : Nat),
      (targetsLoop geo strat sources true n st ti tgts).2.2 = none →
      ∃ blk : Nat → List Event,
        (targetsLoop geo strat sources true n st ti tgts).2.1 =
          (List.range' ti tgts.length).flatMap
            (fun i => Event.progress i n :: blk i) ∧
        ∀ i, ∀ e ∈ blk i, eventIdx e = i ∧ isProgressEv e = false := by
  intro tgts
  induction tgts with
  | nil =>
    intro st ti _
    exact ⟨fun _ => [], rfl, fun i e he => by simp at he⟩
  | cons tgt rest ih =>
    intro st ti hsucc
    obtain ⟨stA, evsA, errA, hPT⟩ :
        ∃ a b c, processTarget geo strat sources true n ti st tgt =
          (a, b, c) := ⟨_, _, _, rfl⟩
    rw [targetsLoop, hPT] at hsucc ⊢
    simp only at hsucc ⊢
    cases errA with
    | some e => simp at hsucc
    | none =>
      simp only at hsucc ⊢
      obtain ⟨b, hb, hbprop⟩ := processTarget_events geo strat sources n
        ti st tgt (by rw [hPT])
      rw [hPT] at hb
      simp only at hb
      obtain ⟨blk2, hblk2, hprop2⟩ := ih stA (ti + 1) hsucc
      refine ⟨fun i => if i = ti then b else blk2 i, ?_, ?_⟩
      · rw [hb, hblk2, List.length_cons, List.range'_succ,
          List.flatMap_cons]
        have hcongr : (List.range' (ti + 1) rest.length).flatMap
            (fun i => Event.progress i n ::
              if i = ti then b else blk2 i) =
            (List.range' (ti + 1) rest.length).flatMap
              (fun i => Event.progress i n :: blk2 i) := by
          apply flatMap_congr_on
          intro i hi
          rw [List.mem_range'] at hi
          obtain ⟨k, _, hk⟩ := hi
          rw [if_neg (by omega)]
        rw [hcongr]
        simp
      · intro i e he
        by_cases hi : i = ti
        · subst hi
          simp only [if_true, eq_self_iff_true] at he
          exact hbprop e he
        · simp only [if_neg hi] at he
          exact hprop2 i e he

end GeoAssigner

namespace GeoAssigner

theorem progressCalls_nonprog :
    ∀ (evs : List Event), (∀ e ∈ evs, isProgressEv e = false) →
      progressCalls evs = [] := by
  intro evs
  induction evs with
  | nil => intro _; rfl
  | cons e rest ih =>
    intro h
    have he := h e (by simp)
    cases e with
    | progress i n => simp [isProgressEv] at he
    | beginHook i =>
      rw [progressCalls, List.filterMap_cons]
      simp only
      exact ih (fun x hx => h x (List.mem_cons_of_mem _ hx))
    | intersectionTest i j =>
      rw [progressCalls, List.filterMap_cons]
      simp only
      exact ih (fun x hx => h x (List.mem_cons_of_mem _ hx))
    | intersectionHook i j =>
      rw [progressCalls, List.filterMap_cons]
      simp only
      exact ih (fun x hx => h x (List.mem_cons_of_mem _ hx))
    | endHook i =>
      rw [progressCalls, List.filterMap_cons]
      simp only
      exact ih (fun x hx => h x (List.mem_cons_of_mem _ hx))

theorem progressCalls_append (a b : List Event) :
    progressCalls (a ++ b) = progressCalls a ++ progressCalls b := by
  rw [progressCalls, progressCalls, progressCalls, List.filterMap_append]

theorem progressCalls_blocks (n : Nat) (blk : Nat → List Event) :
    ∀ (l : List Nat),
      (∀ i ∈ l, ∀ e ∈ blk i, isProgressEv e = false) →
      progressCalls (l.flatMap (fun i => Event.progress i n :: blk i)) =
        l.map (fun i => (i, n)) := by
  intro l
  induction l with
  | nil => intro _; rfl
  | cons i rest ih =>
    intro h
    have hcp : progressCalls (Event.progress i n :: blk i) =
        (i, n) :: progressCalls (blk i) := rfl
    rw [List.flatMap_cons, progressCalls_append, hcp,
      progressCalls_nonprog (blk i) (h i (by simp)),
      ih (fun x hx => h x (List.mem_cons_of_mem i hx))]
    rfl

/-- C7: whenever a progress callback is supplied (`prog = true`) and
the run completes, the callback is invoked exactly once per target, with
arguments `(0, n) … (n-1, n)` in that order (`n` the number of target
features), and each call with first argument `i` precedes every strategy
hook invocation for the target at index `i`: the trace decomposes into
per-target blocks, each starting with its progress call and containing
only non-progress events of that target index.  This holds for every
strategy. -/
theorem assign_progress_trace {G : Type} (geo : GeoLib G) (st0 : Store G)
    (srcIds tgtIds : List Nat) (strat : Strategy G)
    (targets : List (Element G))
    (htgt : toElements st0 tgtIds = some targets)
    (hsucc : (assign geo st0 srcIds tgtIds strat true).error = none) :
    progressCalls (assign geo st0 srcIds tgtIds strat true).events =
      (List.range targets.length).map (fun i => (i, targets.length)) ∧
    ∃ blk : Nat → List Event,
      (assign geo st0 srcIds tgtIds strat true).events =
        (List.range targets.length).flatMap
          (fun i => Event.progress i targets.length :: blk i) ∧
      ∀ i, ∀ e ∈ blk i, eventIdx e = i ∧ isProgressEv e = false := by
  rw [assign] at hsucc ⊢
  cases hs : toElements st0 srcIds with
  | none => rw [hs] at hsucc; simp at hsucc
  | some sources =>
    rw [hs, htgt] at hsucc
    rw [htgt]
    simp only at hsucc ⊢
    obtain ⟨blk, hblk, hprop⟩ := targetsLoop_trace geo strat sources
      targets.length targets st0 0 hsucc
    rw [List.range_eq_range']
    refine ⟨?_, blk, hblk, hprop⟩
    rw [hblk]
    exact progressCalls_blocks targets.length blk
      (List.range' 0 targets.length)
      (fun i _ e he => (hprop i e he).2)

/-- C7 witness: the progress trace of a completed two-target run. -/
theorem assign_progress_trace_witness :
    (assign natGeo okStore [0, 1] [2, 3]
      (LastValueStrategy (List Nat) "p") true).error = none ∧
    progressCalls (assign natGeo okStore [0, 1] [2, 3]
      (LastValueStrategy (List Nat) "p") true).events =
      (List.range 2).map (fun i => (i, 2)) ∧
    ∃ blk : Nat → List Event,
      (assign natGeo okStore [0, 1] [2, 3]
        (LastValueStrategy (List Nat) "p") true).events =
        (List.range 2).flatMap (fun i => Event.progress i 2 :: blk i) ∧
      ∀ i, ∀ e ∈ blk i, eventIdx e = i ∧ isProgressEv e = false :=
  ⟨by decide,
   assign_progress_trace natGeo okStore [0, 1] [2, 3]
     (LastValueStrategy (List Nat) "p")
     [Element.mk 2 [2], Element.mk 3 [5]] (by decide) (by decide)⟩

end GeoAssigner

namespace GeoAssigner

/-- C10: the source-features-unchanged guarantee relies on the
collections holding distinct feature objects.  A property write through
a target element is immediately visible when the same feature is read
through a source element (both are views of the same stored feature),
and in the concrete aliased run on `aliasStore` (feature 1 occurs in
both collections) the shared feature is mutated as a source: its `p`
changes from `20` to `10`, and the later target (feature 2) reads the
mutated value `10` off it as a source. -/
theorem aliased_write_visible :
    (∀ (G : Type) (st : Store G) (eT eS : Element G) (k : String)
        (v : Value), eT.featId = eS.featId → eT.featId < st.length →
      elemGet (elemSet st eT k v) eS k = .ok v) ∧
    ((assign natGeo aliasStore [0, 1] [1, 2]
        (LastValueStrategy (List Nat) "p") false).error = none ∧
      (1 : Nat) ∈ [0, 1] ∧
      getProp (elemProps aliasStore (Element.mk 1 [1])) "p" =
        some (.num 20) ∧
      getFeat (assign natGeo aliasStore [0, 1] [1, 2]
        (LastValueStrategy (List Nat) "p") false).store 1 ≠
        getFeat aliasStore 1 ∧
      getProp (elemProps (assign natGeo aliasStore [0, 1] [1, 2]
        (LastValueStrategy (List Nat) "p") false).store
        (Element.mk 2 [1])) "p" = some (.num 10)) := by
  constructor
  · intro G st eT eS k v hfe hlt
    rw [elemGet, elemSet_eq, hfe]
    rw [elemProps_setFeatProps_self st eS _ (hfe ▸ hlt)]
    rw [getProp_setProp_self]
  · refine ⟨by decide, by decide, by decide, by decide, by decide⟩

/-- C10 witness: the write-read visibility instantiated on the aliased
store with two element views of feature 1. -/
theorem aliased_write_visible_witness :
    (Element.mk 1 [1] : Element (List Nat)).featId =
      (Element.mk 1 [1] : Element (List Nat)).featId ∧
    (Element.mk 1 [1] : Element (List Nat)).featId <
      aliasStore.length ∧
    elemGet (elemSet aliasStore (Element.mk 1 [1]) "p" (.num 7))
      (Element.mk 1 [1]) "p" = .ok (.num 7) :=
  ⟨rfl, by decide,
   aliased_write_visible.1 (List Nat) aliasStore (Element.mk 1 [1])
     (Element.mk 1 [1]) "p" (.num 7) rfl (by decide)⟩

end GeoAssigner
